import Mathlib

set_option maxRecDepth 4000

/-!
Verification development for the MassVideoTranscriber batch pipeline
(src/text-from-video.py).  The script is shallowly embedded: a filesystem
is an association list of files plus a list of directories, the external
tools (ffprobe, ffmpeg, the whisper model) are oracle functions collected
in an `Env`, and every function of the script becomes a state-passing Lean
function that additionally records a trace of events (directory
enumerations, subprocess invocations, model calls, printed messages).
-/

namespace MassVideoTranscriber

/-- A filesystem path, as its list of components relative to the working
directory (the string form "videos/sub/b.mp4" is ["videos","sub","b.mp4"]). -/
abbrev FsPath := List String

/-- Render a path with slash separators, as Python prints a PosixPath. -/
def pathStr (p : FsPath) : String := String.intercalate "/" p

/-- The final component of a path: PurePath.name. -/
def lastComp : FsPath → String
  | [] => ""
  | [x] => x
  | _ :: y :: t => lastComp (y :: t)

/-- Boolean string-suffix test.  pathlib rglob("*.mp4") matches a name iff
fnmatch matches it against the literal pattern, i.e. iff the name ends with
".mp4" (the star also matches the empty string, and pathlib glob does not
treat leading dots specially), so the selection predicates of the script
reduce to this test. -/
def strEndsWith (s suf : String) : Bool := decide (suf.data <:+ s.data)

/-- Index of the last occurrence of a character in a list, if any. -/
def lastIdxOf (c : Char) : List Char → Option Nat
  | [] => none
  | a :: t =>
    match lastIdxOf c t with
    | some i => some (i + 1)
    | none => if a = c then some 0 else none

/-- PurePath.suffix of a file name: the part from the last dot on, provided
that dot is neither the first nor the last character; otherwise "". -/
def pySuffix (name : String) : String :=
  match lastIdxOf '.' name.data with
  | none => ""
  | some i =>
    if 0 < i && i + 1 < name.data.length then String.mk (name.data.drop i) else ""

/-- PurePath.with_suffix: drop the old suffix (when nonempty) and append the
new one; a name with an empty suffix just gets the new suffix appended. -/
def pyWithSuffix (name suf : String) : String :=
  let old := pySuffix name
  if old.data.length == 0 then String.mk (name.data ++ suf.data)
  else String.mk (name.data.take (name.data.length - old.data.length) ++ suf.data)

/-- Apply a function to the last component of a path. -/
def modifyLast (g : String → String) : FsPath → FsPath
  | [] => []
  | [x] => [g x]
  | x :: y :: t => x :: modifyLast g (y :: t)

/-- All nonempty prefixes of a path, shortest first: the chain of
directories mkdir(parents=True) creates. -/
def prefixesIncl (p : FsPath) : List FsPath :=
  (List.range p.length).map (fun i => p.take (i + 1))

/-- The directories that must exist for a file at p to be writable. -/
def dirPrefixes (p : FsPath) : List FsPath := prefixesIncl p.dropLast

/-- root is a strict ancestor of p (p lies strictly below root). -/
def isUnder : FsPath → FsPath → Bool
  | [], p => !p.isEmpty
  | _ :: _, [] => false
  | r :: rs, q :: qs => r == q && isUnder rs qs

/-- The filesystem: regular files with their byte contents, and the set of
directories, both as lists. -/
structure FS where
  files : List (FsPath × String)
  dirs : List FsPath
  deriving DecidableEq

/-- First-match association lookup of a file path. -/
def lookupF : List (FsPath × String) → FsPath → Option String
  | [], _ => none
  | (q, c) :: t, p => if q = p then some c else lookupF t p

/-- Overwrite-or-create: open(path, "w") / ffmpeg -y semantics.  An existing
entry is replaced in place; a new entry is appended. -/
def setFile : List (FsPath × String) → FsPath → String → List (FsPath × String)
  | [], p, c => [(p, c)]
  | (q, d) :: t, p, c => if q = p then (p, c) :: t else (q, d) :: setFile t p c

def fsWrite (fs : FS) (p : FsPath) (c : String) : FS :=
  { fs with files := setFile fs.files p c }

def keysOf (fl : List (FsPath × String)) : List FsPath := fl.map Prod.fst

def fsExistsF (fs : FS) (p : FsPath) : Bool := (lookupF fs.files p).isSome

/-- Create a directory if absent; creating an existing one is a no-op. -/
def insertDir (ds : List FsPath) (d : FsPath) : List FsPath :=
  if d ∈ ds then ds else ds ++ [d]

def applyDirs (ds : List FsPath) (ms : List FsPath) : List FsPath :=
  ms.foldl insertDir ds

/-- mkdir(parents=True, exist_ok=True): create the whole ancestor chain. -/
def mkdirParents (fs : FS) (d : FsPath) : FS :=
  { fs with dirs := applyDirs fs.dirs (prefixesIncl d) }

/-- mkdir(exist_ok=True) without parents: create the one directory. -/
def mkdirOne (fs : FS) (d : FsPath) : FS :=
  { fs with dirs := insertDir fs.dirs d }

/-- Path.mkdir with its two keyword flags: without exist_ok it raises
FileExistsError on an existing directory, with exist_ok it never fails.
The script always passes exist_ok=True. -/
def pyMkdir (fs : FS) (d : FsPath) (parents existOk : Bool) : Except String FS :=
  if !existOk && decide (d ∈ fs.dirs) then
    Except.error ("FileExistsError: " ++ pathStr d)
  else
    Except.ok (if parents then mkdirParents fs d else mkdirOne fs d)

/-- Observable events of a run, in order: rglob enumerations, ffprobe and
ffmpeg subprocess invocations, model loading, model.transcribe calls, and
printed messages. -/
inductive Ev where
  | enumerate (root : FsPath) (pat : String)
  | probe (input : FsPath)
  | decode (input : FsPath) (output : FsPath)
  | loadModel (handle : Nat)
  | transcribeCall (handle : Nat) (audio : FsPath)
  | logMsg (msg : String)
  deriving DecidableEq

/-- Program state threaded through the run: the filesystem, the event
trace, and a flag that stays true only while every file write so far found
its parent directories already present (this is how the claim that parents
are created before writing is checked). -/
structure St where
  fs : FS
  evs : List Ev
  okWrites : Bool
  deriving DecidableEq

def pushEv (st : St) (e : Ev) : St := { st with evs := st.evs ++ [e] }

def stWrite (st : St) (p : FsPath) (c : String) : St :=
  { st with
      fs := fsWrite st.fs p c,
      okWrites := st.okWrites && (dirPrefixes p).all (fun d => decide (d ∈ st.fs.dirs)) }

def stMkdirParents (st : St) (d : FsPath) : St := { st with fs := mkdirParents st.fs d }

def stMkdirOne (st : St) (d : FsPath) : St := { st with fs := mkdirOne st.fs d }

def initSt (fs : FS) : St := { fs := fs, evs := [], okWrites := true }

/-- Result of the ffmpeg decode subprocess: success produces the audio
bytes at the output path; a nonzero exit carries the captured stderr and
whatever content the tool left behind at the output path (none if it left
nothing). -/
inductive DecodeRes where
  | ok (audio : String)
  | fail (stderr : String) (leftover : Option String)
  deriving DecidableEq

/-- The Python exceptions the script can see. -/
inductive PyErr where
  | calledProcessError (stderr : String)
  | valueError (msg : String)
  | inferenceError (msg : String)
  | modelLoadError
  deriving DecidableEq

def pyErrStr : PyErr → String
  | PyErr.calledProcessError s => s
  | PyErr.valueError m => m
  | PyErr.inferenceError m => m
  | PyErr.modelLoadError => "model load failed"

/-- The external world: ffprobe (none = nonzero exit, some = its stdout),
ffmpeg, whisper.load_model (none = raises), and model.transcribe keyed by
the model handle and the audio path (none = raises). -/
structure Env where
  probe : FsPath → Option String
  decode : FsPath → DecodeRes
  loadModel : Option Nat
  transcribeFn : Nat → FsPath → Option String

def isPySpace (c : Char) : Bool :=
  c = ' ' || c = '\t' || c = '\n' || c = '\r' || c = '\x0b' || c = '\x0c'

/-- Truthiness test of stdout.strip(): true iff the string strips to empty. -/
def stripEmpty (s : String) : Bool := s.data.all isPySpace

def unableMsg (i : FsPath) : String :=
  "Unable to read file information for " ++ pathStr i

def errExtractMsg (i : FsPath) : String :=
  "Error extracting audio from " ++ pathStr i

def successMsg (o : FsPath) : String :=
  "Audio extracted successfully: " ++ pathStr o

/-- extract_audio(input_file, output_file): run ffprobe (a nonzero exit
raises CalledProcessError); if its stdout strips to empty raise ValueError;
otherwise run ffmpeg, which on success writes the audio at the output path
and on a nonzero exit raises CalledProcessError after leaving behind
whatever the tool wrote.  Both exception handlers print and re-raise. -/
def extract_audio (env : Env) (st : St) (input output : FsPath) :
    St × Except PyErr Unit :=
  let st1 := pushEv st (Ev.probe input)
  match env.probe input with
  | none =>
    (pushEv st1 (Ev.logMsg (errExtractMsg input)),
     Except.error (PyErr.calledProcessError "ffprobe"))
  | some out =>
    if stripEmpty out then
      (pushEv st1 (Ev.logMsg ("Error: " ++ unableMsg input)),
       Except.error (PyErr.valueError (unableMsg input)))
    else
      let st2 := pushEv st1 (Ev.decode input output)
      match env.decode input with
      | DecodeRes.ok audio =>
        (pushEv (stWrite st2 output audio) (Ev.logMsg (successMsg output)),
         Except.ok ())
      | DecodeRes.fail stderr leftover =>
        let st3 := match leftover with
          | some junk => stWrite st2 output junk
          | none => st2
        (pushEv st3 (Ev.logMsg (errExtractMsg input)),
         Except.error (PyErr.calledProcessError stderr))

/-- The body of the try block of transcribe_audio: call the model, write
the text, then report on the existence check.  The second component is the
exception escaping the try body, if any. -/
def transcribe_try (env : Env) (st : St) (modelH : Nat) (audioPath txtPath : FsPath) :
    St × Option PyErr :=
  let st1 := pushEv st (Ev.transcribeCall modelH audioPath)
  match env.transcribeFn modelH audioPath with
  | none => (st1, some (PyErr.inferenceError (pathStr audioPath)))
  | some text =>
    let st2 := stWrite st1 txtPath text
    if fsExistsF st2.fs txtPath then
      (pushEv st2 (Ev.logMsg ("Transcription saved to: " ++ pathStr txtPath)), none)
    else
      (pushEv st2 (Ev.logMsg ("Error: Failed to create " ++ pathStr txtPath)), none)

/-- The catch-all except handler of transcribe_audio: it only prints. -/
def handleTranscribe (r : St × Option PyErr) : St :=
  match r.2 with
  | none => r.1
  | some e => pushEv r.1 (Ev.logMsg ("Error in transcribe_audio: " ++ pyErrStr e))

/-- transcribe_audio: the try body with a catch-all except handler that
only prints. -/
def transcribe_audio (env : Env) (st : St) (modelH : Nat) (audioPath txtPath : FsPath) : St :=
  handleTranscribe (transcribe_try env st modelH audioPath txtPath)

/-- The files root.rglob(pattern) yields: every file strictly below the
root whose name matches the literal extension pattern, in file-list
order. -/
def matchedOf (fl : List (FsPath × String)) (root : FsPath) (ext : String) : List FsPath :=
  (keysOf fl).filter (fun p => isUnder root p && strEndsWith (lastComp p) ext)

/-- video_file.relative_to(videos_folder). -/
def relTo (root p : FsPath) : FsPath := p.drop root.length

/-- audio_folder / relative_path.with_suffix(".wav"). -/
def audioTarget (v a f : FsPath) : FsPath :=
  a ++ modifyLast (fun n => pyWithSuffix n ".wav") (relTo v f)

/-- results_folder / relative_path.with_suffix(".txt"). -/
def txtTarget (aF rF f : FsPath) : FsPath :=
  rF ++ modifyLast (fun n => pyWithSuffix n ".txt") (relTo aF f)

/-- The except handler of the process_videos loop: print and continue. -/
def handleExtract (r : St × Except PyErr Unit) (f : FsPath) : St :=
  match r.2 with
  | Except.ok _ => r.1
  | Except.error e =>
    pushEv r.1 (Ev.logMsg ("Error processing " ++ lastComp f ++ ": " ++ pyErrStr e))

/-- One iteration of the process_videos loop: compute the mirrored path,
make its parent directories, print, and call extract_audio with the
exception handler that prints and continues. -/
def videoStep (env : Env) (v a : FsPath) (st : St) (f : FsPath) : St :=
  let target := audioTarget v a f
  let st1 := stMkdirParents st target.dropLast
  let st2 := pushEv st1 (Ev.logMsg ("Extracting audio from " ++ pathStr (relTo v f) ++ "..."))
  handleExtract (extract_audio env st2 f target) f

def process_videos (env : Env) (st : St) (v a : FsPath) : St :=
  let st1 := pushEv st (Ev.enumerate v "*.mp4")
  (matchedOf st1.fs.files v ".mp4").foldl (videoStep env v a) st1

/-- One iteration of the process_audio_files loop. -/
def audioStep (env : Env) (aF rF : FsPath) (modelH : Nat) (st : St) (f : FsPath) : St :=
  let target := txtTarget aF rF f
  let st1 := stMkdirParents st target.dropLast
  let st2 := pushEv st1 (Ev.logMsg ("Transcribing " ++ pathStr (relTo aF f) ++ "..."))
  transcribe_audio env st2 modelH f target

def process_audio_files (env : Env) (st : St) (aF rF : FsPath) (modelH : Nat) : St :=
  let st1 := pushEv st (Ev.enumerate aF "*.wav")
  (matchedOf st1.fs.files aF ".wav").foldl (audioStep env aF rF modelH) st1

/-- The report at the end of main: enumerate results/*.txt and print each
size. -/
def finalCheck (st : St) (rF : FsPath) : St :=
  let st1 := pushEv st (Ev.enumerate rF "*.txt")
  let txts := matchedOf st1.fs.files rF ".txt"
  let st2 := pushEv st1
    (Ev.logMsg ("Found " ++ toString txts.length ++ " text files in results folder"))
  txts.foldl
    (fun s f =>
      pushEv s (Ev.logMsg ("- " ++ pathStr (relTo rF f) ++ " Size: " ++
        toString (((lookupF s.fs.files f).getD "").utf8ByteSize)))) st2

def videosRoot : FsPath := ["videos"]
def audioRoot : FsPath := ["audio"]
def resultsRoot : FsPath := ["results"]

/-- main(): create audio/ and results/ (exist_ok), load the model (a
failure is uncaught and aborts), then either transcribe only (first
command-line argument exactly "processaudio") or first list and extract all
videos and then transcribe; finally report the transcripts.  argv is the
list of user arguments, sys.argv[1:]. -/
def mainRun (env : Env) (argv : List String) (fs0 : FS) : St × Option PyErr :=
  let st1 := stMkdirOne (initSt fs0) audioRoot
  let st2 := stMkdirOne st1 resultsRoot
  let st3 := pushEv st2 (Ev.logMsg "Loading Whisper model...")
  match env.loadModel with
  | none => (st3, some PyErr.modelLoadError)
  | some h =>
    let st4 := pushEv st3 (Ev.loadModel h)
    let st5 :=
      if argv.head? = some "processaudio" then
        let s := pushEv st4 (Ev.logMsg "Transcribing audio files...")
        process_audio_files env s audioRoot resultsRoot h
      else
        let s := pushEv st4 (Ev.logMsg "Extracting audio from videos...")
        let s := pushEv s (Ev.enumerate videosRoot "*.mp4")
        let s := process_videos env s videosRoot audioRoot
        let s := pushEv s (Ev.logMsg "Transcribing audio files...")
        process_audio_files env s audioRoot resultsRoot h
    (finalCheck st5 resultsRoot, none)

/-! ### Write lists and basic lemmas

The per-file effects of the two phases are summarised by explicit write
lists; proving that the phases equal the application of those lists is the
backbone of the directory-mirroring and idempotence claims. -/

def myOr (a b : Option String) : Option String :=
  match a with
  | some x => some x
  | none => b

def applyWrites (fl ws : List (FsPath × String)) : List (FsPath × String) :=
  ws.foldl (fun acc pc => setFile acc pc.1 pc.2) fl

/-- Content of the last write to p in the list, if any. -/
def lastWrite : List (FsPath × String) → FsPath → Option String
  | [], _ => none
  | (q, c) :: t, p =>
    match lastWrite t p with
    | some d => some d
    | none => if q = p then some c else none

@[simp] lemma pushEv_fs (st : St) (e : Ev) : (pushEv st e).fs = st.fs := rfl

@[simp] lemma pushEv_evs (st : St) (e : Ev) : (pushEv st e).evs = st.evs ++ [e] := rfl

@[simp] lemma pushEv_ok (st : St) (e : Ev) : (pushEv st e).okWrites = st.okWrites := rfl

@[simp] lemma stWrite_files (st : St) (p : FsPath) (c : String) :
    (stWrite st p c).fs.files = setFile st.fs.files p c := rfl

@[simp] lemma stWrite_dirs (st : St) (p : FsPath) (c : String) :
    (stWrite st p c).fs.dirs = st.fs.dirs := rfl

@[simp] lemma stWrite_evs (st : St) (p : FsPath) (c : String) :
    (stWrite st p c).evs = st.evs := rfl

@[simp] lemma stMkdirParents_files (st : St) (d : FsPath) :
    (stMkdirParents st d).fs.files = st.fs.files := rfl

@[simp] lemma stMkdirParents_dirs (st : St) (d : FsPath) :
    (stMkdirParents st d).fs.dirs = applyDirs st.fs.dirs (prefixesIncl d) := rfl

@[simp] lemma stMkdirParents_evs (st : St) (d : FsPath) :
    (stMkdirParents st d).evs = st.evs := rfl

@[simp] lemma stMkdirParents_ok (st : St) (d : FsPath) :
    (stMkdirParents st d).okWrites = st.okWrites := rfl

@[simp] lemma stMkdirOne_files (st : St) (d : FsPath) :
    (stMkdirOne st d).fs.files = st.fs.files := rfl

@[simp] lemma stMkdirOne_dirs (st : St) (d : FsPath) :
    (stMkdirOne st d).fs.dirs = insertDir st.fs.dirs d := rfl

@[simp] lemma stMkdirOne_evs (st : St) (d : FsPath) :
    (stMkdirOne st d).evs = st.evs := rfl

@[simp] lemma stMkdirOne_ok (st : St) (d : FsPath) :
    (stMkdirOne st d).okWrites = st.okWrites := rfl

@[simp] lemma lookupF_nil (p : FsPath) : lookupF [] p = none := rfl

@[simp] lemma lookupF_cons (x : FsPath × String) (t : List (FsPath × String)) (p : FsPath) :
    lookupF (x :: t) p = if x.1 = p then some x.2 else lookupF t p := by
  obtain ⟨q, c⟩ := x; rfl

@[simp] lemma setFile_nil (p : FsPath) (c : String) : setFile [] p c = [(p, c)] := rfl

@[simp] lemma setFile_cons (x : FsPath × String) (t : List (FsPath × String))
    (p : FsPath) (c : String) :
    setFile (x :: t) p c = if x.1 = p then (p, c) :: t else x :: setFile t p c := by
  obtain ⟨q, d⟩ := x; rfl

@[simp] lemma keysOf_nil : keysOf [] = [] := rfl

@[simp] lemma keysOf_cons (x : FsPath × String) (t : List (FsPath × String)) :
    keysOf (x :: t) = x.1 :: keysOf t := rfl

@[simp] lemma lastWrite_nil (p : FsPath) : lastWrite [] p = none := rfl

lemma lastWrite_cons (x : FsPath × String) (t : List (FsPath × String)) (p : FsPath) :
    lastWrite (x :: t) p =
      match lastWrite t p with
      | some d => some d
      | none => if x.1 = p then some x.2 else none := by
  obtain ⟨q, c⟩ := x; rfl

lemma lookupF_setFile (fl : List (FsPath × String)) (p : FsPath) (c : String) (q : FsPath) :
    lookupF (setFile fl p c) q = if q = p then some c else lookupF fl q := by
  induction fl with
  | nil =>
    by_cases h : q = p
    · subst h; simp
    · simp only [setFile_nil, lookupF_cons, lookupF_nil, if_neg h]
      rw [if_neg (Ne.symm h)]
  | cons hd tl ih =>
    rw [setFile_cons]
    by_cases ha : hd.1 = p
    · rw [if_pos ha, lookupF_cons, lookupF_cons]
      by_cases hq : q = p
      · subst hq; simp
      · rw [if_neg (by exact fun hh => hq hh.symm), if_neg hq,
            if_neg (by rw [ha]; exact fun hh => hq hh.symm)]
    · rw [if_neg ha, lookupF_cons, lookupF_cons, ih]
      by_cases hq : q = p
      · subst hq
        rw [if_neg (by exact ha), if_pos rfl, if_pos rfl]
      · rw [if_neg hq, if_neg hq]

lemma lookupF_eq_none_of_not_mem (fl : List (FsPath × String)) (p : FsPath)
    (h : p ∉ keysOf fl) : lookupF fl p = none := by
  induction fl with
  | nil => rfl
  | cons hd tl ih =>
    rw [keysOf_cons, List.mem_cons] at h
    push_neg at h
    rw [lookupF_cons, if_neg (fun hh => h.1 hh.symm)]
    exact ih h.2

lemma keysOf_setFile (fl : List (FsPath × String)) (p : FsPath) (c : String) :
    keysOf (setFile fl p c) =
      if p ∈ keysOf fl then keysOf fl else keysOf fl ++ [p] := by
  induction fl with
  | nil => simp
  | cons hd tl ih =>
    rw [setFile_cons]
    by_cases ha : hd.1 = p
    · have hmem : p ∈ keysOf (hd :: tl) := by
        rw [keysOf_cons, ha]; exact List.mem_cons_self _ _
      rw [if_pos ha, if_pos hmem, keysOf_cons, keysOf_cons, ha]
    · rw [if_neg ha, keysOf_cons, ih]
      by_cases hm : p ∈ keysOf tl
      · have hmem : p ∈ keysOf (hd :: tl) := by
          rw [keysOf_cons]; exact List.mem_cons_of_mem _ hm
        rw [if_pos hm, if_pos hmem, keysOf_cons]
      · have hmem : p ∉ keysOf (hd :: tl) := by
          rw [keysOf_cons, List.mem_cons]
          push_neg
          exact ⟨fun hh => ha hh.symm, hm⟩
        rw [if_neg hm, if_neg hmem, keysOf_cons]
        simp

lemma keysOf_setFile_of_mem (fl : List (FsPath × String)) (p : FsPath) (c : String)
    (h : p ∈ keysOf fl) : keysOf (setFile fl p c) = keysOf fl := by
  rw [keysOf_setFile, if_pos h]

lemma mem_keysOf_setFile_self (fl : List (FsPath × String)) (p : FsPath) (c : String) :
    p ∈ keysOf (setFile fl p c) := by
  rw [keysOf_setFile]; split_ifs with h
  · exact h
  · simp

lemma mem_keysOf_setFile_mono (fl : List (FsPath × String)) (p : FsPath) (c : String)
    (q : FsPath) (h : q ∈ keysOf fl) : q ∈ keysOf (setFile fl p c) := by
  rw [keysOf_setFile]; split_ifs
  · exact h
  · simp [h]

lemma nodup_keysOf_setFile (fl : List (FsPath × String)) (p : FsPath) (c : String)
    (h : (keysOf fl).Nodup) : (keysOf (setFile fl p c)).Nodup := by
  rw [keysOf_setFile]; split_ifs with hm
  · exact h
  · simp [List.nodup_append, h, hm]

lemma filter_keysOf_setFile (P : FsPath → Bool) (fl : List (FsPath × String))
    (p : FsPath) (c : String) (hp : P p = false) :
    (keysOf (setFile fl p c)).filter P = (keysOf fl).filter P := by
  rw [keysOf_setFile]; split_ifs with hm
  · rfl
  · simp [List.filter_append, hp]

@[simp] lemma applyWrites_nil (fl : List (FsPath × String)) : applyWrites fl [] = fl := rfl

lemma applyWrites_cons (fl : List (FsPath × String)) (x : FsPath × String)
    (ws : List (FsPath × String)) :
    applyWrites fl (x :: ws) = applyWrites (setFile fl x.1 x.2) ws := rfl

lemma applyWrites_append (fl w1 w2 : List (FsPath × String)) :
    applyWrites fl (w1 ++ w2) = applyWrites (applyWrites fl w1) w2 := by
  simp [applyWrites, List.foldl_append]

lemma lookupF_applyWrites (ws : List (FsPath × String)) :
    ∀ (fl : List (FsPath × String)) (p : FsPath),
      lookupF (applyWrites fl ws) p = myOr (lastWrite ws p) (lookupF fl p) := by
  induction ws with
  | nil => intro fl p; simp [myOr]
  | cons hd tl ih =>
    intro fl p
    rw [applyWrites_cons, ih, lastWrite_cons]
    cases h : lastWrite tl p with
    | some d => simp [myOr]
    | none =>
      rw [lookupF_setFile]
      by_cases hq : p = hd.1
      · subst hq; simp [myOr]
      · rw [if_neg hq, if_neg (Ne.symm hq)]

lemma mem_keysOf_applyWrites_mono (ws : List (FsPath × String)) :
    ∀ (fl : List (FsPath × String)) (q : FsPath),
      q ∈ keysOf fl → q ∈ keysOf (applyWrites fl ws) := by
  induction ws with
  | nil => intro fl q h; simpa using h
  | cons hd tl ih =>
    intro fl q h
    rw [applyWrites_cons]
    exact ih _ q (mem_keysOf_setFile_mono _ _ _ _ h)

lemma mem_keysOf_applyWrites_of_mem (ws : List (FsPath × String)) :
    ∀ (fl : List (FsPath × String)) (p : FsPath) (c : String),
      (p, c) ∈ ws → p ∈ keysOf (applyWrites fl ws) := by
  induction ws with
  | nil => intro fl p c h; simp at h
  | cons hd tl ih =>
    intro fl p c h
    rw [applyWrites_cons]
    rcases List.mem_cons.mp h with h | h
    · have hp : p = hd.1 := by rw [← h]
      subst hp
      exact mem_keysOf_applyWrites_mono tl _ _ (mem_keysOf_setFile_self _ _ _)
    · exact ih _ p c h

lemma keysOf_applyWrites_of_subset (ws : List (FsPath × String)) :
    ∀ (fl : List (FsPath × String)),
      (∀ pc ∈ ws, pc.1 ∈ keysOf fl) → keysOf (applyWrites fl ws) = keysOf fl := by
  induction ws with
  | nil => intro fl _; rfl
  | cons hd tl ih =>
    intro fl h
    rw [applyWrites_cons]
    have h1 : hd.1 ∈ keysOf fl := h hd (List.mem_cons_self _ _)
    have hset := keysOf_setFile_of_mem fl hd.1 hd.2 h1
    rw [ih _ (fun pc hpc => by rw [hset]; exact h pc (List.mem_cons_of_mem _ hpc)), hset]

lemma nodup_keysOf_applyWrites (ws : List (FsPath × String)) :
    ∀ (fl : List (FsPath × String)),
      (keysOf fl).Nodup → (keysOf (applyWrites fl ws)).Nodup := by
  induction ws with
  | nil => intro fl h; simpa using h
  | cons hd tl ih =>
    intro fl h
    rw [applyWrites_cons]
    exact ih _ (nodup_keysOf_setFile _ _ _ h)

lemma filter_keysOf_applyWrites (P : FsPath → Bool) (ws : List (FsPath × String)) :
    ∀ (fl : List (FsPath × String)),
      (∀ pc ∈ ws, P pc.1 = false) →
      (keysOf (applyWrites fl ws)).filter P = (keysOf fl).filter P := by
  induction ws with
  | nil => intro fl _; rfl
  | cons hd tl ih =>
    intro fl h
    rw [applyWrites_cons]
    rw [ih _ (fun pc hpc => h pc (List.mem_cons_of_mem _ hpc))]
    exact filter_keysOf_setFile P fl hd.1 hd.2 (h hd (List.mem_cons_self _ _))

lemma lastWrite_isSome_of_mem (ws : List (FsPath × String)) (p : FsPath) (c : String)
    (h : (p, c) ∈ ws) : ∃ d, lastWrite ws p = some d := by
  induction ws with
  | nil => simp at h
  | cons hd tl ih =>
    rcases List.mem_cons.mp h with h | h
    · cases hlw : lastWrite tl p with
      | some d => exact ⟨d, by rw [lastWrite_cons, hlw]⟩
      | none =>
        refine ⟨hd.2, ?_⟩
        rw [lastWrite_cons, hlw]
        have hp : hd.1 = p := by rw [← h]
        simp [hp]
    · obtain ⟨d, hd2⟩ := ih h
      exact ⟨d, by rw [lastWrite_cons, hd2]⟩

lemma eq_of_keysOf_lookupF :
    ∀ (fl fl' : List (FsPath × String)), keysOf fl' = keysOf fl →
      (keysOf fl).Nodup → (∀ p, lookupF fl' p = lookupF fl p) → fl' = fl := by
  intro fl
  induction fl with
  | nil =>
    intro fl' hk _ _
    cases fl' with
    | nil => rfl
    | cons h t => simp at hk
  | cons hd tl ih =>
    intro fl' hk hnd hlk
    cases fl' with
    | nil => simp at hk
    | cons hd' tl' =>
      rw [keysOf_cons, keysOf_cons, List.cons.injEq] at hk
      obtain ⟨hk1, hkt⟩ := hk
      rw [keysOf_cons, List.nodup_cons] at hnd
      have hc : hd'.2 = hd.2 := by
        have h1 := hlk hd.1
        rw [lookupF_cons, lookupF_cons, hk1, if_pos rfl, if_pos rfl] at h1
        exact Option.some.inj h1
      have hqn' : hd.1 ∉ keysOf tl' := by rw [hkt]; exact hnd.1
      have hlkt : ∀ p, lookupF tl' p = lookupF tl p := by
        intro p
        by_cases hpq : p = hd.1
        · subst hpq
          rw [lookupF_eq_none_of_not_mem _ _ hqn', lookupF_eq_none_of_not_mem _ _ hnd.1]
        · have h1 := hlk p
          rw [lookupF_cons, lookupF_cons, hk1,
              if_neg (fun hh => hpq hh.symm), if_neg (fun hh => hpq hh.symm)] at h1
          exact h1
      rw [ih tl' hkt hnd.2 hlkt, Prod.ext hk1 hc]

@[simp] lemma applyDirs_nil (ds : List FsPath) : applyDirs ds [] = ds := rfl

lemma applyDirs_cons (ds : List FsPath) (m : FsPath) (ms : List FsPath) :
    applyDirs ds (m :: ms) = applyDirs (insertDir ds m) ms := rfl

lemma applyDirs_append (ds m1 m2 : List FsPath) :
    applyDirs ds (m1 ++ m2) = applyDirs (applyDirs ds m1) m2 := by
  simp [applyDirs, List.foldl_append]

lemma mem_insertDir_self (ds : List FsPath) (d : FsPath) : d ∈ insertDir ds d := by
  unfold insertDir; split_ifs with h
  · exact h
  · simp

lemma mem_insertDir_mono (ds : List FsPath) (d x : FsPath) (h : x ∈ ds) :
    x ∈ insertDir ds d := by
  unfold insertDir; split_ifs
  · exact h
  · simp [h]

lemma insertDir_of_mem (ds : List FsPath) (d : FsPath) (h : d ∈ ds) :
    insertDir ds d = ds := if_pos h

lemma mem_applyDirs_mono (ms : List FsPath) :
    ∀ (ds : List FsPath) (x : FsPath), x ∈ ds → x ∈ applyDirs ds ms := by
  induction ms with
  | nil => intro ds x h; simpa using h
  | cons m t ih =>
    intro ds x h
    rw [applyDirs_cons]
    exact ih _ x (mem_insertDir_mono _ _ _ h)

lemma mem_applyDirs_of_mem (ms : List FsPath) :
    ∀ (ds : List FsPath) (d : FsPath), d ∈ ms → d ∈ applyDirs ds ms := by
  induction ms with
  | nil => intro ds d h; simp at h
  | cons m t ih =>
    intro ds d h
    rw [applyDirs_cons]
    rcases List.mem_cons.mp h with h | h
    · subst h; exact mem_applyDirs_mono t _ _ (mem_insertDir_self _ _)
    · exact ih _ d h

lemma applyDirs_of_subset (ms : List FsPath) :
    ∀ (ds : List FsPath), (∀ d ∈ ms, d ∈ ds) → applyDirs ds ms = ds := by
  induction ms with
  | nil => intro ds _; rfl
  | cons m t ih =>
    intro ds h
    rw [applyDirs_cons, insertDir_of_mem _ _ (h m (List.mem_cons_self _ _))]
    exact ih _ (fun d hd => h d (List.mem_cons_of_mem _ hd))

/-! ### Per-file effect descriptions and component lemmas -/

/-- The outcome of extract_audio as a function of the environment alone. -/
def extractResult (env : Env) (i : FsPath) : Except PyErr Unit :=
  match env.probe i with
  | none => Except.error (PyErr.calledProcessError "ffprobe")
  | some out =>
    if stripEmpty out then Except.error (PyErr.valueError (unableMsg i))
    else match env.decode i with
      | DecodeRes.ok _ => Except.ok ()
      | DecodeRes.fail stderr _ => Except.error (PyErr.calledProcessError stderr)

/-- The file writes performed during one extract_audio call. -/
def extractWriteOf (env : Env) (i o : FsPath) : List (FsPath × String) :=
  match env.probe i with
  | none => []
  | some out =>
    if stripEmpty out then []
    else match env.decode i with
      | DecodeRes.ok audio => [(o, audio)]
      | DecodeRes.fail _ none => []
      | DecodeRes.fail _ (some junk) => [(o, junk)]

/-- The events recorded during one extract_audio call. -/
def extractCoreEvs (env : Env) (i o : FsPath) : List Ev :=
  Ev.probe i ::
    (match env.probe i with
     | none => [Ev.logMsg (errExtractMsg i)]
     | some out =>
       if stripEmpty out then [Ev.logMsg ("Error: " ++ unableMsg i)]
       else Ev.decode i o ::
         (match env.decode i with
          | DecodeRes.ok _ => [Ev.logMsg (successMsg o)]
          | DecodeRes.fail _ _ => [Ev.logMsg (errExtractMsg i)]))

/-- The events recorded during one iteration of the process_videos loop. -/
def extractEvs (env : Env) (v a : FsPath) (f : FsPath) : List Ev :=
  Ev.logMsg ("Extracting audio from " ++ pathStr (relTo v f) ++ "...") ::
    extractCoreEvs env f (audioTarget v a f) ++
    (match extractResult env f with
     | Except.ok _ => []
     | Except.error e =>
       [Ev.logMsg ("Error processing " ++ lastComp f ++ ": " ++ pyErrStr e)])

/-- The file writes performed during one transcribe_audio call. -/
def transcribeWriteOf (env : Env) (m : Nat) (f t : FsPath) : List (FsPath × String) :=
  match env.transcribeFn m f with
  | none => []
  | some text => [(t, text)]

/-- The exception escaping the try body of transcribe_audio, if any. -/
def transcribeErrOf (env : Env) (m : Nat) (f : FsPath) : Option PyErr :=
  match env.transcribeFn m f with
  | none => some (PyErr.inferenceError (pathStr f))
  | some _ => none

/-- The events recorded during one iteration of the process_audio_files
loop. -/
def transcribeEvs (env : Env) (m : Nat) (aF rF : FsPath) (f : FsPath) : List Ev :=
  Ev.logMsg ("Transcribing " ++ pathStr (relTo aF f) ++ "...") ::
    Ev.transcribeCall m f ::
    (match env.transcribeFn m f with
     | none =>
       [Ev.logMsg ("Error in transcribe_audio: " ++ pyErrStr (PyErr.inferenceError (pathStr f)))]
     | some _ => [Ev.logMsg ("Transcription saved to: " ++ pathStr (txtTarget aF rF f))])

/-- All file writes of one process_videos run over a file list. -/
def extractWrites (env : Env) (fl : List (FsPath × String)) (v a : FsPath) :
    List (FsPath × String) :=
  (matchedOf fl v ".mp4").flatMap (fun f => extractWriteOf env f (audioTarget v a f))

/-- All file writes of one process_audio_files run over a file list. -/
def transcribeWrites (env : Env) (fl : List (FsPath × String)) (aF rF : FsPath) (m : Nat) :
    List (FsPath × String) :=
  (matchedOf fl aF ".wav").flatMap (fun f => transcribeWriteOf env m f (txtTarget aF rF f))

lemma extract_audio_files (env : Env) (st : St) (i o : FsPath) :
    (extract_audio env st i o).1.fs.files = applyWrites st.fs.files (extractWriteOf env i o) := by
  unfold extract_audio extractWriteOf
  cases hp : env.probe i with
  | none => simp
  | some out =>
    by_cases hs : stripEmpty out = true
    · simp [hs]
    · simp only [hs, Bool.false_eq_true, if_false]
      cases hd : env.decode i with
      | ok audio => simp [applyWrites]
      | fail stderr lf =>
        cases lf with
        | none => simp
        | some junk => simp [applyWrites]

lemma extract_audio_dirs (env : Env) (st : St) (i o : FsPath) :
    (extract_audio env st i o).1.fs.dirs = st.fs.dirs := by
  unfold extract_audio
  cases hp : env.probe i with
  | none => simp
  | some out =>
    by_cases hs : stripEmpty out = true
    · simp [hs]
    · simp only [hs, Bool.false_eq_true, if_false]
      cases hd : env.decode i with
      | ok audio => simp
      | fail stderr lf => cases lf with
        | none => simp
        | some junk => simp

lemma extract_audio_evs (env : Env) (st : St) (i o : FsPath) :
    (extract_audio env st i o).1.evs = st.evs ++ extractCoreEvs env i o := by
  unfold extract_audio extractCoreEvs
  cases hp : env.probe i with
  | none => simp
  | some out =>
    by_cases hs : stripEmpty out = true
    · simp [hs]
    · simp only [hs, Bool.false_eq_true, if_false]
      cases hd : env.decode i with
      | ok audio => simp
      | fail stderr lf => cases lf with
        | none => simp
        | some junk => simp

lemma extract_audio_snd (env : Env) (st : St) (i o : FsPath) :
    (extract_audio env st i o).2 = extractResult env i := by
  unfold extract_audio extractResult
  cases hp : env.probe i with
  | none => simp
  | some out =>
    by_cases hs : stripEmpty out = true
    · simp [hs]
    · simp only [hs, Bool.false_eq_true, if_false]
      cases hd : env.decode i with
      | ok audio => simp
      | fail stderr lf => cases lf with
        | none => simp
        | some junk => simp

lemma all_decide_mem (ds : List FsPath) (l : List FsPath) (h : ∀ d ∈ l, d ∈ ds) :
    (l.all fun d => decide (d ∈ ds)) = true :=
  List.all_eq_true.mpr fun d hd => decide_eq_true (h d hd)

lemma extract_audio_ok (env : Env) (st : St) (i o : FsPath)
    (hsub : ∀ d ∈ dirPrefixes o, d ∈ st.fs.dirs) :
    (extract_audio env st i o).1.okWrites = st.okWrites := by
  unfold extract_audio
  cases hp : env.probe i with
  | none => simp
  | some out =>
    by_cases hs : stripEmpty out = true
    · simp [hs]
    · simp only [hs, Bool.false_eq_true, if_false]
      cases hd : env.decode i with
      | ok audio =>
        simp only [pushEv_ok, stWrite]
        simp [all_decide_mem _ _ hsub]
      | fail stderr lf => cases lf with
        | none => simp
        | some junk =>
          simp only [pushEv_ok, stWrite]
          simp [all_decide_mem _ _ hsub]

lemma handleExtract_fs (r : St × Except PyErr Unit) (f : FsPath) :
    (handleExtract r f).fs = r.1.fs := by
  unfold handleExtract; cases r.2 <;> rfl

lemma handleExtract_ok (r : St × Except PyErr Unit) (f : FsPath) :
    (handleExtract r f).okWrites = r.1.okWrites := by
  unfold handleExtract; cases r.2 <;> rfl

lemma handleExtract_evs (r : St × Except PyErr Unit) (f : FsPath) :
    (handleExtract r f).evs = r.1.evs ++
      (match r.2 with
       | Except.ok _ => []
       | Except.error e =>
         [Ev.logMsg ("Error processing " ++ lastComp f ++ ": " ++ pyErrStr e)]) := by
  unfold handleExtract
  cases r.2 with
  | ok u => simp
  | error e => simp

lemma videoStep_files (env : Env) (v a : FsPath) (st : St) (f : FsPath) :
    (videoStep env v a st f).fs.files =
      applyWrites st.fs.files (extractWriteOf env f (audioTarget v a f)) := by
  simp only [videoStep, handleExtract_fs, extract_audio_files, pushEv_fs,
    stMkdirParents_files]

lemma videoStep_dirs (env : Env) (v a : FsPath) (st : St) (f : FsPath) :
    (videoStep env v a st f).fs.dirs =
      applyDirs st.fs.dirs (prefixesIncl (audioTarget v a f).dropLast) := by
  simp only [videoStep, handleExtract_fs, extract_audio_dirs, pushEv_fs,
    stMkdirParents_dirs]

lemma videoStep_evs (env : Env) (v a : FsPath) (st : St) (f : FsPath) :
    (videoStep env v a st f).evs = st.evs ++ extractEvs env v a f := by
  simp only [videoStep, handleExtract_evs, extract_audio_evs, extract_audio_snd,
    pushEv_evs, stMkdirParents_evs, extractEvs]
  simp [List.append_assoc]

lemma videoStep_ok (env : Env) (v a : FsPath) (st : St) (f : FsPath)
    (h : st.okWrites = true) : (videoStep env v a st f).okWrites = true := by
  simp only [videoStep, handleExtract_ok]
  rw [extract_audio_ok]
  · simpa using h
  · intro d hd
    simp only [pushEv_fs, stMkdirParents_dirs]
    exact mem_applyDirs_of_mem _ _ _ hd

lemma fsExistsF_after_write (fs : FS) (p : FsPath) (c : String) :
    fsExistsF (fsWrite fs p c) p = true := by
  unfold fsExistsF fsWrite
  simp [lookupF_setFile]

lemma transcribe_try_files (env : Env) (st : St) (m : Nat) (f t : FsPath) :
    (transcribe_try env st m f t).1.fs.files =
      applyWrites st.fs.files (transcribeWriteOf env m f t) := by
  unfold transcribe_try transcribeWriteOf
  cases ht : env.transcribeFn m f with
  | none => simp
  | some text =>
    simp only []
    rw [if_pos]
    · simp [applyWrites]
    · exact fsExistsF_after_write _ _ _

lemma transcribe_try_dirs (env : Env) (st : St) (m : Nat) (f t : FsPath) :
    (transcribe_try env st m f t).1.fs.dirs = st.fs.dirs := by
  unfold transcribe_try
  cases ht : env.transcribeFn m f with
  | none => simp
  | some text =>
    simp only []
    rw [if_pos]
    · simp
    · exact fsExistsF_after_write _ _ _

lemma transcribe_try_evs (env : Env) (st : St) (m : Nat) (f t : FsPath) :
    (transcribe_try env st m f t).1.evs = st.evs ++
      Ev.transcribeCall m f ::
        (match env.transcribeFn m f with
         | none => []
         | some _ => [Ev.logMsg ("Transcription saved to: " ++ pathStr t)]) := by
  unfold transcribe_try
  cases ht : env.transcribeFn m f with
  | none => simp
  | some text =>
    simp only []
    rw [if_pos]
    · simp
    · exact fsExistsF_after_write _ _ _

lemma transcribe_try_snd (env : Env) (st : St) (m : Nat) (f t : FsPath) :
    (transcribe_try env st m f t).2 = transcribeErrOf env m f := by
  unfold transcribe_try transcribeErrOf
  cases ht : env.transcribeFn m f with
  | none => simp
  | some text =>
    simp only []
    rw [if_pos]
    · exact fsExistsF_after_write _ _ _

lemma transcribe_try_ok (env : Env) (st : St) (m : Nat) (f t : FsPath)
    (hsub : ∀ d ∈ dirPrefixes t, d ∈ st.fs.dirs) :
    (transcribe_try env st m f t).1.okWrites = st.okWrites := by
  unfold transcribe_try
  cases ht : env.transcribeFn m f with
  | none => simp
  | some text =>
    simp only []
    rw [if_pos]
    · simp only [pushEv_ok, stWrite]
      simp [all_decide_mem _ _ hsub]
    · exact fsExistsF_after_write _ _ _

lemma handleTranscribe_fs (r : St × Option PyErr) : (handleTranscribe r).fs = r.1.fs := by
  unfold handleTranscribe; cases r.2 <;> rfl

lemma handleTranscribe_ok (r : St × Option PyErr) :
    (handleTranscribe r).okWrites = r.1.okWrites := by
  unfold handleTranscribe; cases r.2 <;> rfl

lemma handleTranscribe_evs (r : St × Option PyErr) :
    (handleTranscribe r).evs = r.1.evs ++
      (match r.2 with
       | none => []
       | some e => [Ev.logMsg ("Error in transcribe_audio: " ++ pyErrStr e)]) := by
  unfold handleTranscribe
  cases r.2 with
  | none => simp
  | some e => simp

lemma audioStep_files (env : Env) (aF rF : FsPath) (m : Nat) (st : St) (f : FsPath) :
    (audioStep env aF rF m st f).fs.files =
      applyWrites st.fs.files (transcribeWriteOf env m f (txtTarget aF rF f)) := by
  simp only [audioStep, transcribe_audio, handleTranscribe_fs, transcribe_try_files,
    pushEv_fs, stMkdirParents_files]

lemma audioStep_dirs (env : Env) (aF rF : FsPath) (m : Nat) (st : St) (f : FsPath) :
    (audioStep env aF rF m st f).fs.dirs =
      applyDirs st.fs.dirs (prefixesIncl (txtTarget aF rF f).dropLast) := by
  simp only [audioStep, transcribe_audio, handleTranscribe_fs, transcribe_try_dirs,
    pushEv_fs, stMkdirParents_dirs]

lemma audioStep_evs (env : Env) (aF rF : FsPath) (m : Nat) (st : St) (f : FsPath) :
    (audioStep env aF rF m st f).evs = st.evs ++ transcribeEvs env m aF rF f := by
  simp only [audioStep, transcribe_audio, handleTranscribe_evs, transcribe_try_evs,
    transcribe_try_snd, transcribeErrOf, pushEv_evs, stMkdirParents_evs, transcribeEvs]
  cases ht : env.transcribeFn m f with
  | none => simp [List.append_assoc]
  | some text => simp [List.append_assoc]

lemma audioStep_ok (env : Env) (aF rF : FsPath) (m : Nat) (st : St) (f : FsPath)
    (h : st.okWrites = true) : (audioStep env aF rF m st f).okWrites = true := by
  simp only [audioStep, transcribe_audio, handleTranscribe_ok]
  rw [transcribe_try_ok]
  · simpa using h
  · intro d hd
    simp only [pushEv_fs, stMkdirParents_dirs]
    exact mem_applyDirs_of_mem _ _ _ hd

/-- Characterisation of a fold over per-file steps whose effects are
described by per-file write, directory and event lists. -/
lemma foldl_step_char (step : St → FsPath → St)
    (W : FsPath → List (FsPath × String)) (D : FsPath → List FsPath)
    (E : FsPath → List Ev)
    (hW : ∀ st f, (step st f).fs.files = applyWrites st.fs.files (W f))
    (hD : ∀ st f, (step st f).fs.dirs = applyDirs st.fs.dirs (D f))
    (hE : ∀ st f, (step st f).evs = st.evs ++ E f)
    (hO : ∀ st f, st.okWrites = true → (step st f).okWrites = true) :
    ∀ (l : List FsPath) (st : St),
      (l.foldl step st).fs.files = applyWrites st.fs.files (l.flatMap W) ∧
      (l.foldl step st).fs.dirs = applyDirs st.fs.dirs (l.flatMap D) ∧
      (l.foldl step st).evs = st.evs ++ l.flatMap E ∧
      (st.okWrites = true → (l.foldl step st).okWrites = true) := by
  intro l
  induction l with
  | nil => intro st; simp
  | cons f t ih =>
    intro st
    rw [List.foldl_cons]
    obtain ⟨h1, h2, h3, h4⟩ := ih (step st f)
    refine ⟨?_, ?_, ?_, ?_⟩
    · rw [h1, hW, List.flatMap_cons, applyWrites_append]
    · rw [h2, hD, List.flatMap_cons, applyDirs_append]
    · rw [h3, hE, List.flatMap_cons, List.append_assoc]
    · intro h; exact h4 (hO st f h)

lemma process_videos_char (env : Env) (st : St) (v a : FsPath) :
    (process_videos env st v a).fs.files =
        applyWrites st.fs.files (extractWrites env st.fs.files v a) ∧
    (process_videos env st v a).fs.dirs =
        applyDirs st.fs.dirs
          ((matchedOf st.fs.files v ".mp4").flatMap
            (fun f => prefixesIncl (audioTarget v a f).dropLast)) ∧
    (process_videos env st v a).evs =
        st.evs ++ Ev.enumerate v "*.mp4" ::
          (matchedOf st.fs.files v ".mp4").flatMap (extractEvs env v a) ∧
    (st.okWrites = true → (process_videos env st v a).okWrites = true) := by
  have h := foldl_step_char (videoStep env v a)
    (fun f => extractWriteOf env f (audioTarget v a f))
    (fun f => prefixesIncl (audioTarget v a f).dropLast)
    (extractEvs env v a)
    (videoStep_files env v a) (videoStep_dirs env v a) (videoStep_evs env v a)
    (videoStep_ok env v a)
    (matchedOf st.fs.files v ".mp4")
    (pushEv st (Ev.enumerate v "*.mp4"))
  obtain ⟨h1, h2, h3, h4⟩ := h
  simp only [process_videos, pushEv_fs]
  refine ⟨?_, ?_, ?_, ?_⟩
  · rw [h1, pushEv_fs]; rfl
  · rw [h2, pushEv_fs]
  · rw [h3, pushEv_evs, List.append_assoc]; rfl
  · intro h; exact h4 (by simpa using h)

lemma process_audio_files_char (env : Env) (st : St) (aF rF : FsPath) (m : Nat) :
    (process_audio_files env st aF rF m).fs.files =
        applyWrites st.fs.files (transcribeWrites env st.fs.files aF rF m) ∧
    (process_audio_files env st aF rF m).fs.dirs =
        applyDirs st.fs.dirs
          ((matchedOf st.fs.files aF ".wav").flatMap
            (fun f => prefixesIncl (txtTarget aF rF f).dropLast)) ∧
    (process_audio_files env st aF rF m).evs =
        st.evs ++ Ev.enumerate aF "*.wav" ::
          (matchedOf st.fs.files aF ".wav").flatMap (transcribeEvs env m aF rF) ∧
    (st.okWrites = true → (process_audio_files env st aF rF m).okWrites = true) := by
  have h := foldl_step_char (audioStep env aF rF m)
    (fun f => transcribeWriteOf env m f (txtTarget aF rF f))
    (fun f => prefixesIncl (txtTarget aF rF f).dropLast)
    (transcribeEvs env m aF rF)
    (audioStep_files env aF rF m) (audioStep_dirs env aF rF m) (audioStep_evs env aF rF m)
    (audioStep_ok env aF rF m)
    (matchedOf st.fs.files aF ".wav")
    (pushEv st (Ev.enumerate aF "*.wav"))
  obtain ⟨h1, h2, h3, h4⟩ := h
  simp only [process_audio_files, pushEv_fs]
  refine ⟨?_, ?_, ?_, ?_⟩
  · rw [h1, pushEv_fs]; rfl
  · rw [h2, pushEv_fs]
  · rw [h3, pushEv_evs, List.append_assoc]; rfl
  · intro h; exact h4 (by simpa using h)

/-- The report fold of finalCheck only pushes log messages: the filesystem
and the write flag are untouched. -/
lemma finalCheck_foldl_char (rF : FsPath) :
    ∀ (l : List FsPath) (st : St),
      (l.foldl
        (fun s f =>
          pushEv s (Ev.logMsg ("- " ++ pathStr (relTo rF f) ++ " Size: " ++
            toString (((lookupF s.fs.files f).getD "").utf8ByteSize)))) st).fs = st.fs ∧
      (l.foldl
        (fun s f =>
          pushEv s (Ev.logMsg ("- " ++ pathStr (relTo rF f) ++ " Size: " ++
            toString (((lookupF s.fs.files f).getD "").utf8ByteSize)))) st).okWrites =
        st.okWrites ∧
      ∃ es : List Ev,
        (l.foldl
          (fun s f =>
            pushEv s (Ev.logMsg ("- " ++ pathStr (relTo rF f) ++ " Size: " ++
              toString (((lookupF s.fs.files f).getD "").utf8ByteSize)))) st).evs =
          st.evs ++ es ∧
        ∀ e ∈ es, ∃ msg, e = Ev.logMsg msg := by
  intro l
  induction l with
  | nil => intro st; exact ⟨rfl, rfl, [], by simp, by simp⟩
  | cons f t ih =>
    intro st
    rw [List.foldl_cons]
    obtain ⟨h1, h2, es, h3, h4⟩ := ih _
    refine ⟨by rw [h1]; rfl, by rw [h2]; rfl,
      Ev.logMsg ("- " ++ pathStr (relTo rF f) ++ " Size: " ++
        toString (((lookupF st.fs.files f).getD "").utf8ByteSize)) :: es, ?_, ?_⟩
    · rw [h3, pushEv_evs]
      simp
    · intro e he
      rcases List.mem_cons.mp he with he | he
      · exact ⟨_, he⟩
      · exact h4 e he

lemma finalCheck_fs (st : St) (rF : FsPath) : (finalCheck st rF).fs = st.fs := by
  simp only [finalCheck, pushEv_fs]
  obtain ⟨h1, _, _⟩ := finalCheck_foldl_char rF (matchedOf st.fs.files rF ".txt") _
  rw [h1]; rfl

lemma finalCheck_ok (st : St) (rF : FsPath) :
    (finalCheck st rF).okWrites = st.okWrites := by
  simp only [finalCheck, pushEv_fs]
  obtain ⟨_, h2, _⟩ := finalCheck_foldl_char rF (matchedOf st.fs.files rF ".txt") _
  rw [h2]; rfl

lemma finalCheck_evs (st : St) (rF : FsPath) :
    ∃ es : List Ev,
      (finalCheck st rF).evs = st.evs ++ Ev.enumerate rF "*.txt" :: es ∧
      ∀ e ∈ es, ∃ msg, e = Ev.logMsg msg := by
  simp only [finalCheck, pushEv_fs]
  obtain ⟨_, _, es, h3, h4⟩ := finalCheck_foldl_char rF (matchedOf st.fs.files rF ".txt")
    (pushEv (pushEv st (Ev.enumerate rF "*.txt"))
      (Ev.logMsg ("Found " ++ toString (matchedOf st.fs.files rF ".txt").length ++
        " text files in results folder")))
  refine ⟨Ev.logMsg ("Found " ++ toString (matchedOf st.fs.files rF ".txt").length ++
    " text files in results folder") :: es, ?_, ?_⟩
  · rw [h3]
    simp
  · intro e he
    rcases List.mem_cons.mp he with he | he
    · exact ⟨_, he⟩
    · exact h4 e he

/-! ### The three branches of main -/

/-- The state just before process_audio_files in transcribe-only mode. -/
def paPre (fs0 : FS) (m : Nat) : St :=
  pushEv (pushEv (pushEv (stMkdirOne (stMkdirOne (initSt fs0) audioRoot) resultsRoot)
    (Ev.logMsg "Loading Whisper model...")) (Ev.loadModel m))
    (Ev.logMsg "Transcribing audio files...")

/-- The state just before process_videos in full-pipeline mode. -/
def fullPre (fs0 : FS) (m : Nat) : St :=
  pushEv (pushEv (pushEv (pushEv (stMkdirOne (stMkdirOne (initSt fs0) audioRoot) resultsRoot)
    (Ev.logMsg "Loading Whisper model...")) (Ev.loadModel m))
    (Ev.logMsg "Extracting audio from videos...")) (Ev.enumerate videosRoot "*.mp4")

@[simp] lemma paPre_files (fs0 : FS) (m : Nat) : (paPre fs0 m).fs.files = fs0.files := rfl

@[simp] lemma paPre_dirs (fs0 : FS) (m : Nat) :
    (paPre fs0 m).fs.dirs = insertDir (insertDir fs0.dirs audioRoot) resultsRoot := rfl

@[simp] lemma paPre_evs (fs0 : FS) (m : Nat) :
    (paPre fs0 m).evs = [Ev.logMsg "Loading Whisper model...", Ev.loadModel m,
      Ev.logMsg "Transcribing audio files..."] := rfl

@[simp] lemma paPre_ok (fs0 : FS) (m : Nat) : (paPre fs0 m).okWrites = true := rfl

@[simp] lemma fullPre_files (fs0 : FS) (m : Nat) : (fullPre fs0 m).fs.files = fs0.files := rfl

@[simp] lemma fullPre_dirs (fs0 : FS) (m : Nat) :
    (fullPre fs0 m).fs.dirs = insertDir (insertDir fs0.dirs audioRoot) resultsRoot := rfl

@[simp] lemma fullPre_evs (fs0 : FS) (m : Nat) :
    (fullPre fs0 m).evs = [Ev.logMsg "Loading Whisper model...", Ev.loadModel m,
      Ev.logMsg "Extracting audio from videos...", Ev.enumerate videosRoot "*.mp4"] := rfl

@[simp] lemma fullPre_ok (fs0 : FS) (m : Nat) : (fullPre fs0 m).okWrites = true := rfl

lemma mainRun_none_eq (env : Env) (argv : List String) (fs0 : FS)
    (hm : env.loadModel = none) :
    mainRun env argv fs0 =
      (pushEv (stMkdirOne (stMkdirOne (initSt fs0) audioRoot) resultsRoot)
        (Ev.logMsg "Loading Whisper model..."), some PyErr.modelLoadError) := by
  unfold mainRun
  rw [hm]

lemma mainRun_pa_eq (env : Env) (argv : List String) (fs0 : FS) (m : Nat)
    (hm : env.loadModel = some m) (ha : argv.head? = some "processaudio") :
    mainRun env argv fs0 =
      (finalCheck (process_audio_files env (paPre fs0 m) audioRoot resultsRoot m)
        resultsRoot, none) := by
  unfold mainRun paPre
  rw [hm, ha]
  simp only [eq_self_iff_true, if_true]

lemma mainRun_full_eq (env : Env) (argv : List String) (fs0 : FS) (m : Nat)
    (hm : env.loadModel = some m) (ha : ¬argv.head? = some "processaudio") :
    mainRun env argv fs0 =
      (finalCheck
        (process_audio_files env
          (pushEv (process_videos env (fullPre fs0 m) videosRoot audioRoot)
            (Ev.logMsg "Transcribing audio files..."))
          audioRoot resultsRoot m)
        resultsRoot, none) := by
  unfold mainRun fullPre
  rw [hm]
  simp only [if_neg ha]

/-! ### Path and selection-predicate lemmas -/

lemma isUnder_cons_cons (r q : String) (rs qs : List String) :
    isUnder (r :: rs) (q :: qs) = ((r == q) && isUnder rs qs) := rfl

lemma not_under_videos_audio (x : FsPath) : isUnder videosRoot (audioRoot ++ x) = false := by
  show isUnder ["videos"] ("audio" :: x) = false
  rw [isUnder_cons_cons]
  rw [show (("videos" : String) == "audio") = false by decide]
  simp

lemma not_under_videos_results (x : FsPath) :
    isUnder videosRoot (resultsRoot ++ x) = false := by
  show isUnder ["videos"] ("results" :: x) = false
  rw [isUnder_cons_cons]
  rw [show (("videos" : String) == "results") = false by decide]
  simp

lemma not_under_audio_results (x : FsPath) :
    isUnder audioRoot (resultsRoot ++ x) = false := by
  show isUnder ["audio"] ("results" :: x) = false
  rw [isUnder_cons_cons]
  rw [show (("audio" : String) == "results") = false by decide]
  simp

lemma extractWriteOf_key (env : Env) (i o : FsPath) (pc : FsPath × String)
    (h : pc ∈ extractWriteOf env i o) : pc.1 = o := by
  unfold extractWriteOf at h
  split at h
  · simp at h
  · split at h
    · simp at h
    · split at h
      · simp at h; rw [h]
      · simp at h
      · simp at h; rw [h]

lemma transcribeWriteOf_key (env : Env) (m : Nat) (f t : FsPath) (pc : FsPath × String)
    (h : pc ∈ transcribeWriteOf env m f t) : pc.1 = t := by
  unfold transcribeWriteOf at h
  split at h
  · simp at h
  · simp at h; rw [h]

lemma extractWrites_key (env : Env) (fl : List (FsPath × String)) (v a : FsPath)
    (pc : FsPath × String) (h : pc ∈ extractWrites env fl v a) :
    ∃ f ∈ matchedOf fl v ".mp4", pc.1 = audioTarget v a f := by
  unfold extractWrites at h
  obtain ⟨f, hf, hmem⟩ := List.mem_flatMap.mp h
  exact ⟨f, hf, extractWriteOf_key env f _ pc hmem⟩

lemma transcribeWrites_key (env : Env) (fl : List (FsPath × String)) (aF rF : FsPath)
    (m : Nat) (pc : FsPath × String) (h : pc ∈ transcribeWrites env fl aF rF m) :
    ∃ f ∈ matchedOf fl aF ".wav", pc.1 = txtTarget aF rF f := by
  unfold transcribeWrites at h
  obtain ⟨f, hf, hmem⟩ := List.mem_flatMap.mp h
  exact ⟨f, hf, transcribeWriteOf_key env m f _ pc hmem⟩

lemma matchedOf_applyWrites_of_not (fl ws : List (FsPath × String)) (root : FsPath)
    (ext : String)
    (h : ∀ pc ∈ ws, (isUnder root pc.1 && strEndsWith (lastComp pc.1) ext) = false) :
    matchedOf (applyWrites fl ws) root ext = matchedOf fl root ext :=
  filter_keysOf_applyWrites _ ws fl h

lemma matchedOf_applyWrites_of_subset (fl ws : List (FsPath × String)) (root : FsPath)
    (ext : String) (h : ∀ pc ∈ ws, pc.1 ∈ keysOf fl) :
    matchedOf (applyWrites fl ws) root ext = matchedOf fl root ext := by
  unfold matchedOf
  rw [keysOf_applyWrites_of_subset ws fl h]

lemma mem_matchedOf_mono (fl ws : List (FsPath × String)) (root : FsPath) (ext : String)
    (p : FsPath) (h : p ∈ matchedOf fl root ext) :
    p ∈ matchedOf (applyWrites fl ws) root ext := by
  unfold matchedOf at h ⊢
  obtain ⟨h1, h2⟩ := List.mem_filter.mp h
  exact List.mem_filter.mpr ⟨mem_keysOf_applyWrites_mono ws fl p h1, h2⟩

/-! ### File-name and extension lemmas -/

/-- Modelled from the spec: the path transformation the spec text describes
for a file selected by its extension, namely the trailing literal extension
replaced by the new one. -/
def specChangeExt (name oldExt newExt : String) : String :=
  String.mk (name.data.take (name.data.length - oldExt.data.length) ++ newExt.data)

@[simp] lemma lastComp_single (x : String) : lastComp [x] = x := rfl

lemma lastComp_cons_cons (x y : String) (t : List String) :
    lastComp (x :: y :: t) = lastComp (y :: t) := rfl

lemma lastComp_append (xs ys : FsPath) (h : ys ≠ []) :
    lastComp (xs ++ ys) = lastComp ys := by
  induction xs with
  | nil => rfl
  | cons x xs ih =>
    cases hxy : xs ++ ys with
    | nil => exact absurd (List.append_eq_nil.mp hxy).2 h
    | cons z t =>
      rw [List.cons_append, hxy, lastComp_cons_cons, ← hxy, ih]

lemma isUnder_length (v : FsPath) : ∀ f : FsPath, isUnder v f = true → v.length < f.length := by
  induction v with
  | nil =>
    intro f h
    cases f with
    | nil => simp [isUnder] at h
    | cons x t => simp
  | cons r rs ih =>
    intro f h
    cases f with
    | nil => simp [isUnder] at h
    | cons q qs =>
      rw [isUnder_cons_cons, Bool.and_eq_true] at h
      simpa using ih qs h.2

lemma isUnder_take_drop (v f : FsPath) (h : isUnder v f = true) :
    f.take v.length ++ f.drop v.length = f ∧ f.drop v.length ≠ [] := by
  refine ⟨List.take_append_drop _ _, ?_⟩
  intro hnil
  rw [List.drop_eq_nil_iff] at hnil
  exact absurd (isUnder_length v f h) (not_lt.mpr hnil)

lemma lastComp_relTo (v f : FsPath) (h : isUnder v f = true) :
    lastComp (relTo v f) = lastComp f := by
  obtain ⟨h1, h2⟩ := isUnder_take_drop v f h
  unfold relTo
  conv_rhs => rw [← h1]
  rw [lastComp_append _ _ h2]

lemma relTo_ne_nil (v f : FsPath) (h : isUnder v f = true) : relTo v f ≠ [] :=
  (isUnder_take_drop v f h).2

lemma modifyLast_congr (g1 g2 : String → String) :
    ∀ p : FsPath, g1 (lastComp p) = g2 (lastComp p) → modifyLast g1 p = modifyLast g2 p := by
  intro p
  induction p with
  | nil => intro _; rfl
  | cons x t ih =>
    intro h
    cases t with
    | nil => simpa [modifyLast] using h
    | cons y s =>
      rw [lastComp_cons_cons] at h
      show x :: modifyLast g1 (y :: s) = x :: modifyLast g2 (y :: s)
      rw [ih h]

lemma strEndsWith_iff (s suf : String) :
    strEndsWith s suf = true ↔ ∃ pre, pre ++ suf.data = s.data := by
  unfold strEndsWith
  rw [decide_eq_true_iff]
  exact Iff.rfl

lemma lastIdxOf_append_some (c : Char) (ys : List Char) (i : Nat)
    (h : lastIdxOf c ys = some i) :
    ∀ xs : List Char, lastIdxOf c (xs ++ ys) = some (xs.length + i) := by
  intro xs
  induction xs with
  | nil => simpa using h
  | cons x t ih =>
    rw [List.cons_append]
    rw [show lastIdxOf c (x :: (t ++ ys)) =
      (match lastIdxOf c (t ++ ys) with
       | some j => some (j + 1)
       | none => if x = c then some 0 else none) from rfl, ih]
    show some (t.length + i + 1) = some ((x :: t).length + i)
    rw [List.length_cons]
    congr 1
    omega

lemma lastIdxOf_append_none (c : Char) (ys : List Char) (h : lastIdxOf c ys = none) :
    ∀ xs : List Char, lastIdxOf c (xs ++ ys) = lastIdxOf c xs := by
  intro xs
  induction xs with
  | nil => simpa using h
  | cons x t ih =>
    rw [List.cons_append]
    rw [show lastIdxOf c (x :: (t ++ ys)) =
      (match lastIdxOf c (t ++ ys) with
       | some j => some (j + 1)
       | none => if x = c then some 0 else none) from rfl, ih]
    rfl

lemma lastIdxOf_ext (e1 e2 e3 : Char) (h1 : e1 ≠ '.') (h2 : e2 ≠ '.') (h3 : e3 ≠ '.') :
    lastIdxOf '.' ['.', e1, e2, e3] = some 0 := by
  simp [lastIdxOf, h1, h2, h3]

/-- On any matched name other than the bare dot-extension itself,
with_suffix strips exactly the trailing extension: the pathlib computation
agrees with the plain extension replacement of the spec. -/
lemma pyWithSuffix_spec (name suf : String) (e1 e2 e3 : Char) (pre : List Char)
    (h1 : e1 ≠ '.') (h2 : e2 ≠ '.') (h3 : e3 ≠ '.') (hpre : pre ≠ [])
    (hname : name.data = pre ++ ['.', e1, e2, e3]) :
    pyWithSuffix name suf = String.mk (pre ++ suf.data) := by
  have hidx : lastIdxOf '.' name.data = some pre.length := by
    rw [hname, lastIdxOf_append_some '.' _ 0 (lastIdxOf_ext e1 e2 e3 h1 h2 h3)]
    rw [Nat.add_zero]
  have hlen : name.data.length = pre.length + 4 := by
    rw [hname, List.length_append]
    rfl
  have hpos : 0 < pre.length := List.length_pos.mpr hpre
  have hcond : (decide (0 < pre.length) && decide (pre.length + 1 < name.data.length)) = true := by
    rw [Bool.and_eq_true, decide_eq_true_iff, decide_eq_true_iff]
    exact ⟨hpos, by rw [hlen]; omega⟩
  have hsuffix : pySuffix name = String.mk ['.', e1, e2, e3] := by
    unfold pySuffix
    rw [hidx]
    show (if (decide (0 < pre.length) && decide (pre.length + 1 < name.data.length)) = true
          then String.mk (name.data.drop pre.length) else "") = String.mk ['.', e1, e2, e3]
    rw [if_pos hcond, hname, List.drop_left]
  unfold pyWithSuffix
  rw [hsuffix]
  show (if ((String.mk ['.', e1, e2, e3]).data.length == 0) = true
        then String.mk (name.data ++ suf.data)
        else String.mk
          (name.data.take (name.data.length - (String.mk ['.', e1, e2, e3]).data.length) ++
            suf.data)) = String.mk (pre ++ suf.data)
  rw [if_neg (by simp)]
  rw [hlen]
  rw [show (String.mk ['.', e1, e2, e3]).data.length = 4 from rfl]
  rw [show pre.length + 4 - 4 = pre.length from by omega]
  rw [hname, List.take_left]

/-- The spec transformation coincides with stripping the extension. -/
lemma specChangeExt_eq (name suf : String) (e1 e2 e3 : Char) (pre : List Char)
    (hname : name.data = pre ++ ['.', e1, e2, e3]) :
    specChangeExt name (String.mk ['.', e1, e2, e3]) suf = String.mk (pre ++ suf.data) := by
  unfold specChangeExt
  rw [hname, List.length_append]
  rw [show pre.length + (['.', e1, e2, e3] : List Char).length -
    (String.mk ['.', e1, e2, e3]).data.length = pre.length from by simp]
  rw [List.take_left]

/-- strEndsWith with a 4-character dot extension decomposes the name. -/
lemma strEndsWith_decomp (name : String) (e1 e2 e3 : Char)
    (h : strEndsWith name (String.mk ['.', e1, e2, e3]) = true) :
    ∃ pre, name.data = pre ++ ['.', e1, e2, e3] := by
  obtain ⟨pre, hpre⟩ := (strEndsWith_iff _ _).mp h
  exact ⟨pre, hpre.symm⟩

lemma name_eq_of_pre_nil (name : String) (e1 e2 e3 : Char)
    (hname : name.data = [] ++ ['.', e1, e2, e3]) :
    name = String.mk ['.', e1, e2, e3] := by
  rw [List.nil_append] at hname
  cases name with
  | mk d =>
    show String.mk d = String.mk ['.', e1, e2, e3]
    rw [show d = ['.', e1, e2, e3] from hname]

/-! ### Event membership lemmas -/

@[simp] lemma initSt_fs (fs : FS) : (initSt fs).fs = fs := rfl

@[simp] lemma initSt_evs (fs : FS) : (initSt fs).evs = [] := rfl

@[simp] lemma initSt_ok (fs : FS) : (initSt fs).okWrites = true := rfl

lemma fsEq (x y : FS) (h1 : x.files = y.files) (h2 : x.dirs = y.dirs) : x = y := by
  cases x; cases y
  cases h1; cases h2
  rfl

lemma extractEvs_shape (env : Env) (v a f : FsPath) :
    ∀ e ∈ extractEvs env v a f,
      e = Ev.probe f ∨ e = Ev.decode f (audioTarget v a f) ∨ ∃ s, e = Ev.logMsg s := by
  intro e he
  unfold extractEvs extractCoreEvs extractResult at he
  cases hp : env.probe f <;> rw [hp] at he
  · simp at he
    rcases he with rfl | rfl | rfl | rfl <;> simp
  · rename_i out
    by_cases hs : stripEmpty out = true
    · simp [hs] at he
      rcases he with rfl | rfl | rfl | rfl <;> simp
    · cases hd : env.decode f <;> simp [hs, hd] at he
      · rcases he with rfl | rfl | rfl | rfl <;> simp
      · rcases he with rfl | rfl | rfl | rfl | rfl <;> simp

lemma probe_mem_extractEvs (env : Env) (v a f x : FsPath) :
    Ev.probe x ∈ extractEvs env v a f ↔ x = f := by
  constructor
  · intro h
    rcases extractEvs_shape env v a f _ h with h1 | h1 | ⟨s, h1⟩
    · exact Ev.probe.inj h1
    · exact absurd h1 (by simp)
    · exact absurd h1 (by simp)
  · intro h
    subst h
    unfold extractEvs extractCoreEvs
    simp

lemma transcribeEvs_shape (env : Env) (m : Nat) (aF rF f : FsPath) :
    ∀ e ∈ transcribeEvs env m aF rF f,
      e = Ev.transcribeCall m f ∨ ∃ s, e = Ev.logMsg s := by
  intro e he
  unfold transcribeEvs at he
  cases ht : env.transcribeFn m f <;> rw [ht] at he <;> simp at he <;>
    rcases he with rfl | rfl | rfl <;> simp

lemma transcribeCall_mem_transcribeEvs (env : Env) (m : Nat) (aF rF f : FsPath)
    (k : Nat) (x : FsPath) :
    Ev.transcribeCall k x ∈ transcribeEvs env m aF rF f ↔ k = m ∧ x = f := by
  constructor
  · intro h
    rcases transcribeEvs_shape env m aF rF f _ h with h1 | ⟨s, h1⟩
    · exact ⟨(Ev.transcribeCall.inj h1).1, (Ev.transcribeCall.inj h1).2⟩
    · exact absurd h1 (by simp)
  · rintro ⟨rfl, rfl⟩
    unfold transcribeEvs
    simp

lemma probe_mem_extract_flatMap (env : Env) (v a : FsPath) (M : List FsPath) (x : FsPath) :
    Ev.probe x ∈ M.flatMap (extractEvs env v a) ↔ x ∈ M := by
  rw [List.mem_flatMap]
  constructor
  · rintro ⟨f, hf, hmem⟩
    rw [probe_mem_extractEvs] at hmem
    rwa [hmem]
  · intro h
    exact ⟨x, h, (probe_mem_extractEvs env v a x x).mpr rfl⟩

lemma transcribeCall_mem_transcribe_flatMap (env : Env) (m : Nat) (aF rF : FsPath)
    (M : List FsPath) (k : Nat) (x : FsPath) :
    Ev.transcribeCall k x ∈ M.flatMap (transcribeEvs env m aF rF) ↔ k = m ∧ x ∈ M := by
  rw [List.mem_flatMap]
  constructor
  · rintro ⟨f, hf, hmem⟩
    rw [transcribeCall_mem_transcribeEvs] at hmem
    exact ⟨hmem.1, hmem.2 ▸ hf⟩
  · rintro ⟨rfl, h⟩
    exact ⟨x, h, (transcribeCall_mem_transcribeEvs _ _ _ _ _ _ _).mpr ⟨rfl, rfl⟩⟩

/-! ### Claim theorems -/

/-- C3: a video whose duration probe yields empty output makes
extract_audio fail with the ValueError before ffmpeg is ever invoked — the
returned state appends only the probe event and the error message, the
filesystem is unchanged and no decode event exists — and process_videos
catches per-file failures, so every matched file of the batch still gets
its probe call. -/
theorem claim_C3 (env : Env) (st : St) (i o : FsPath) (s : String)
    (hp : env.probe i = some s) (hs : stripEmpty s = true) :
    extract_audio env st i o =
      (pushEv (pushEv st (Ev.probe i)) (Ev.logMsg ("Error: " ++ unableMsg i)),
       Except.error (PyErr.valueError (unableMsg i))) ∧
    (extract_audio env st i o).1.fs = st.fs ∧
    (∀ x y, Ev.decode x y ∉ (extract_audio env st i o).1.evs.drop st.evs.length) ∧
    (∀ v a f, f ∈ matchedOf st.fs.files v ".mp4" →
      Ev.probe f ∈ (process_videos env st v a).evs) := by
  have heq : extract_audio env st i o =
      (pushEv (pushEv st (Ev.probe i)) (Ev.logMsg ("Error: " ++ unableMsg i)),
       Except.error (PyErr.valueError (unableMsg i))) := by
    unfold extract_audio
    rw [hp]
    simp only [hs, if_true]
  refine ⟨heq, by rw [heq]; rfl, ?_, ?_⟩
  · intro x y
    rw [heq]
    simp [pushEv]
  · intro v a f hf
    obtain ⟨_, _, h3, _⟩ := process_videos_char env st v a
    rw [h3]
    rw [List.mem_append]
    right
    rw [List.mem_cons]
    right
    exact (probe_mem_extract_flatMap env v a _ f).mpr hf

/-- C5 (amended): only an empty-but-successful probe yields the
ValueError; a probe subprocess failure (unreadable input) raises
CalledProcessError, the same exception class as a decode failure; in both
probe-failure cases nothing is written. -/
theorem claim_C5_amended (env : Env) (st : St) (i o : FsPath) :
    (env.probe i = none →
      (extract_audio env st i o).2 = Except.error (PyErr.calledProcessError "ffprobe") ∧
      (extract_audio env st i o).1.fs = st.fs) ∧
    (∀ s, env.probe i = some s → stripEmpty s = true →
      (extract_audio env st i o).2 = Except.error (PyErr.valueError (unableMsg i)) ∧
      (extract_audio env st i o).1.fs = st.fs) ∧
    (∀ s e lf, env.probe i = some s → stripEmpty s = false →
      env.decode i = DecodeRes.fail e lf →
      (extract_audio env st i o).2 = Except.error (PyErr.calledProcessError e)) := by
  refine ⟨?_, ?_, ?_⟩
  · intro hp
    constructor
    · rw [extract_audio_snd]
      unfold extractResult
      rw [hp]
    · apply fsEq
      · rw [extract_audio_files]
        unfold extractWriteOf
        rw [hp]
        rfl
      · exact extract_audio_dirs env st i o
  · intro s hp hs
    constructor
    · rw [extract_audio_snd]
      unfold extractResult
      rw [hp]
      simp [hs]
    · apply fsEq
      · rw [extract_audio_files]
        unfold extractWriteOf
        rw [hp]
        simp [hs]
      · exact extract_audio_dirs env st i o
  · intro s e lf hp hs hd
    rw [extract_audio_snd]
    unfold extractResult
    rw [hp]
    simp [hs, hd]

/-- C6: transcribe_audio never propagates an exception: a model failure is
caught, only logged, and leaves the filesystem unchanged; the only
exception the try body can produce is the model-call one (the existence
check after the write never raises); and process_audio_files still calls
transcribe for every matched file of the batch. -/
theorem claim_C6 (env : Env) (st : St) (m : Nat) (aP tP aF rF : FsPath) :
    (env.transcribeFn m aP = none →
      transcribe_audio env st m aP tP =
        pushEv (pushEv st (Ev.transcribeCall m aP))
          (Ev.logMsg ("Error in transcribe_audio: " ++
            pyErrStr (PyErr.inferenceError (pathStr aP)))) ∧
      (transcribe_audio env st m aP tP).fs = st.fs) ∧
    ((transcribe_try env st m aP tP).2 = none ∨
      (transcribe_try env st m aP tP).2 = some (PyErr.inferenceError (pathStr aP))) ∧
    (∀ f ∈ matchedOf st.fs.files aF ".wav",
      Ev.transcribeCall m f ∈ (process_audio_files env st aF rF m).evs) := by
  refine ⟨?_, ?_, ?_⟩
  · intro ht
    have heq : transcribe_audio env st m aP tP =
        pushEv (pushEv st (Ev.transcribeCall m aP))
          (Ev.logMsg ("Error in transcribe_audio: " ++
            pyErrStr (PyErr.inferenceError (pathStr aP)))) := by
      unfold transcribe_audio handleTranscribe transcribe_try
      rw [ht]
    exact ⟨heq, by rw [heq]; rfl⟩
  · rw [transcribe_try_snd]
    unfold transcribeErrOf
    cases ht : env.transcribeFn m aP
    · right; rfl
    · left; rfl
  · intro f hf
    obtain ⟨_, _, h3, _⟩ := process_audio_files_char env st aF rF m
    rw [h3]
    rw [List.mem_append]
    right
    rw [List.mem_cons]
    right
    exact (transcribeCall_mem_transcribe_flatMap env m aF rF _ m f).mpr ⟨rfl, hf⟩

/-- C10: file selection is an exact, case-sensitive literal extension
match: process_videos probes exactly the files below the video root whose
name ends in ".mp4" and process_audio_files transcribes exactly those
ending in ".wav"; the selection predicate is membership below the root
plus the literal suffix test, which rejects ".MP4". -/
theorem claim_C10 (env : Env) (fs : FS) (v a aF rF : FsPath) (m : Nat) (f : FsPath) :
    (Ev.probe f ∈ (process_videos env (initSt fs) v a).evs ↔
      f ∈ matchedOf fs.files v ".mp4") ∧
    (Ev.transcribeCall m f ∈ (process_audio_files env (initSt fs) aF rF m).evs ↔
      f ∈ matchedOf fs.files aF ".wav") ∧
    (f ∈ matchedOf fs.files v ".mp4" ↔
      f ∈ keysOf fs.files ∧ isUnder v f = true ∧ strEndsWith (lastComp f) ".mp4" = true) ∧
    strEndsWith "A.MP4" ".mp4" = false ∧ strEndsWith "a.mp4" ".mp4" = true := by
  refine ⟨?_, ?_, ?_, by decide, by decide⟩
  · obtain ⟨_, _, h3, _⟩ := process_videos_char env (initSt fs) v a
    rw [h3]
    simp only [initSt_evs, initSt_fs, List.nil_append, List.mem_cons]
    rw [probe_mem_extract_flatMap]
    constructor
    · rintro (h | h)
      · exact absurd h (by simp)
      · exact h
    · intro h; right; exact h
  · obtain ⟨_, _, h3, _⟩ := process_audio_files_char env (initSt fs) aF rF m
    rw [h3]
    simp only [initSt_evs, initSt_fs, List.nil_append, List.mem_cons]
    rw [transcribeCall_mem_transcribe_flatMap]
    constructor
    · rintro (h | h)
      · exact absurd h (by simp)
      · exact h.2
    · intro h; right; exact ⟨rfl, h⟩
  · unfold matchedOf
    rw [List.mem_filter, Bool.and_eq_true]

lemma pyWithSuffix_eq_specChangeExt (name : String) (e1 e2 e3 : Char) (suf : String)
    (h1 : e1 ≠ '.') (h2 : e2 ≠ '.') (h3 : e3 ≠ '.')
    (hEnds : strEndsWith name (String.mk ['.', e1, e2, e3]) = true)
    (hNe : name ≠ String.mk ['.', e1, e2, e3]) :
    pyWithSuffix name suf = specChangeExt name (String.mk ['.', e1, e2, e3]) suf := by
  obtain ⟨pre, hname⟩ := strEndsWith_decomp name e1 e2 e3 hEnds
  have hpre : pre ≠ [] := by
    intro h
    subst h
    exact hNe (name_eq_of_pre_nil name e1 e2 e3 hname)
  rw [pyWithSuffix_spec name suf e1 e2 e3 pre h1 h2 h3 hpre hname,
      specChangeExt_eq name suf e1 e2 e3 pre hname]

/-- C1 (amended): the writes of process_videos are exactly at the audio
root joined with the relative path transformed by with_suffix(".wav"), and
likewise for process_audio_files with ".txt"; for every selected file
whose name is not the bare extension itself (".mp4" resp ".wav") this is
exactly the literal extension replacement of the spec; all writes happen
with their parent directories already created (the okWrites flag stays
true). -/
theorem claim_C1_amended (env : Env) (st : St) (v a aF rF : FsPath) (m : Nat)
    (hok : st.okWrites = true) :
    ((process_videos env st v a).fs.files =
        applyWrites st.fs.files (extractWrites env st.fs.files v a) ∧
      (∀ pc ∈ extractWrites env st.fs.files v a,
        ∃ f ∈ matchedOf st.fs.files v ".mp4", pc.1 = audioTarget v a f) ∧
      (∀ f ∈ matchedOf st.fs.files v ".mp4", lastComp f ≠ ".mp4" →
        audioTarget v a f =
          a ++ modifyLast (fun n => specChangeExt n ".mp4" ".wav") (relTo v f)) ∧
      (process_videos env st v a).okWrites = true) ∧
    ((process_audio_files env st aF rF m).fs.files =
        applyWrites st.fs.files (transcribeWrites env st.fs.files aF rF m) ∧
      (∀ pc ∈ transcribeWrites env st.fs.files aF rF m,
        ∃ f ∈ matchedOf st.fs.files aF ".wav", pc.1 = txtTarget aF rF f) ∧
      (∀ f ∈ matchedOf st.fs.files aF ".wav", lastComp f ≠ ".wav" →
        txtTarget aF rF f =
          rF ++ modifyLast (fun n => specChangeExt n ".wav" ".txt") (relTo aF f)) ∧
      (process_audio_files env st aF rF m).okWrites = true) := by
  obtain ⟨hv1, _, _, hv4⟩ := process_videos_char env st v a
  obtain ⟨ha1, _, _, ha4⟩ := process_audio_files_char env st aF rF m
  refine ⟨⟨hv1, extractWrites_key env st.fs.files v a, ?_, hv4 hok⟩,
          ⟨ha1, transcribeWrites_key env st.fs.files aF rF m, ?_, ha4 hok⟩⟩
  · intro f hf hne
    obtain ⟨hkeys, hpred⟩ := List.mem_filter.mp hf
    obtain ⟨hu, he⟩ := Bool.and_eq_true .. |>.mp hpred
    unfold audioTarget
    congr 1
    apply modifyLast_congr
    rw [lastComp_relTo v f hu]
    have hmp4 : (".mp4" : String) = String.mk ['.', 'm', 'p', '4'] := rfl
    rw [hmp4]
    exact pyWithSuffix_eq_specChangeExt (lastComp f) 'm' 'p' '4' ".wav"
      (by decide) (by decide) (by decide) (hmp4 ▸ he) (hmp4 ▸ hne)
  · intro f hf hne
    obtain ⟨hkeys, hpred⟩ := List.mem_filter.mp hf
    obtain ⟨hu, he⟩ := Bool.and_eq_true .. |>.mp hpred
    unfold txtTarget
    congr 1
    apply modifyLast_congr
    rw [lastComp_relTo aF f hu]
    have hwav : (".wav" : String) = String.mk ['.', 'w', 'a', 'v'] := rfl
    rw [hwav]
    exact pyWithSuffix_eq_specChangeExt (lastComp f) 'w' 'a' 'v' ".txt"
      (by decide) (by decide) (by decide) (hwav ▸ he) (hwav ▸ hne)

/-- A concrete environment for the C1 counterexample: one readable video
named exactly ".mp4" in the video root. -/
def envC1 : Env :=
  { probe := fun _ => some "3.14",
    decode := fun _ => DecodeRes.ok "AUDIOBYTES",
    loadModel := some 0,
    transcribeFn := fun _ _ => some "hello" }

def stC1 : St :=
  initSt { files := [(["videos", ".mp4"], "VID")], dirs := [["videos"]] }

/-- C1 counterexample: for the video file "videos/.mp4" the spec path —
the relative path with extension changed from .mp4 to .wav, that is
"audio/.wav" — is NOT produced; the audio is written at "audio/.mp4.wav"
instead, because pathlib treats the leading dot as part of the stem. -/
theorem claim_C1_counterexample :
    (["videos", ".mp4"] ∈ matchedOf stC1.fs.files ["videos"] ".mp4") ∧
    lookupF (process_videos envC1 stC1 ["videos"] ["audio"]).fs.files
      ["audio", ".mp4.wav"] = some "AUDIOBYTES" ∧
    lookupF (process_videos envC1 stC1 ["videos"] ["audio"]).fs.files
      ["audio", ".wav"] = none := by
  refine ⟨by decide, ?_, ?_⟩ <;> decide

/-- C5 counterexample environment: the probe subprocess itself fails
(unreadable input, ffprobe exits nonzero). -/
def envC5 : Env :=
  { probe := fun _ => none,
    decode := fun _ => DecodeRes.ok "AUDIOBYTES",
    loadModel := some 0,
    transcribeFn := fun _ _ => some "hello" }

def stC5 : St := initSt { files := [(["videos", "a.mp4"], "VID")], dirs := [["videos"]] }

/-- C5 counterexample: an unreadable input makes the probe subprocess exit
nonzero, and extract_audio then fails with CalledProcessError — the same
exception class as a decode failure — not with the ValueError the claim
calls InputUnreadable. -/
theorem claim_C5_counterexample :
    envC5.probe ["videos", "a.mp4"] = none ∧
    (extract_audio envC5 stC5 ["videos", "a.mp4"] ["audio", "a.wav"]).2 =
      Except.error (PyErr.calledProcessError "ffprobe") := by
  exact ⟨rfl, rfl⟩

/-- C4 (amended): after extract_audio, either the call succeeded and the
complete decoded audio sits at the target path, or it failed; on a probe
failure the filesystem is unchanged, but on a decode failure the target
path holds whatever the external tool left behind (nothing, or a partial
file) — the script itself neither writes nor cleans up there; and for
every matched file whose extraction fails, process_videos logs an error
naming that file. -/
theorem claim_C4_amended (env : Env) (st : St) (i o : FsPath) :
    ((extract_audio env st i o).2 = Except.ok () →
      ∃ audio, env.decode i = DecodeRes.ok audio ∧
        lookupF (extract_audio env st i o).1.fs.files o = some audio) ∧
    (∀ e, (extract_audio env st i o).2 = Except.error e →
      ((env.probe i = none ∨ ∃ s, env.probe i = some s ∧ stripEmpty s = true) →
        (extract_audio env st i o).1.fs = st.fs) ∧
      (∀ s stderr lf, env.probe i = some s → stripEmpty s = false →
        env.decode i = DecodeRes.fail stderr lf →
        lookupF (extract_audio env st i o).1.fs.files o =
          myOr lf (lookupF st.fs.files o))) ∧
    (∀ v a f e, f ∈ matchedOf st.fs.files v ".mp4" →
      extractResult env f = Except.error e →
      Ev.logMsg ("Error processing " ++ lastComp f ++ ": " ++ pyErrStr e) ∈
        (process_videos env st v a).evs) := by
  refine ⟨?_, ?_, ?_⟩
  · rw [extract_audio_snd]
    intro hok
    cases hp : env.probe i with
    | none =>
      rw [show extractResult env i = Except.error (PyErr.calledProcessError "ffprobe")
          from by unfold extractResult; simp [hp]] at hok
      exact absurd hok (by simp)
    | some out =>
      by_cases hs : stripEmpty out = true
      · rw [show extractResult env i = Except.error (PyErr.valueError (unableMsg i))
            from by unfold extractResult; simp [hp, hs]] at hok
        exact absurd hok (by simp)
      · cases hd : env.decode i with
        | ok audio =>
          refine ⟨audio, rfl, ?_⟩
          rw [extract_audio_files]
          rw [show extractWriteOf env i o = [(o, audio)]
              from by unfold extractWriteOf; simp [hp, hs, hd]]
          rw [show applyWrites st.fs.files [(o, audio)] = setFile st.fs.files o audio from rfl]
          rw [lookupF_setFile, if_pos rfl]
        | fail stderr lf =>
          rw [show extractResult env i = Except.error (PyErr.calledProcessError stderr)
              from by unfold extractResult; simp [hp, hs, hd]] at hok
          exact absurd hok (by simp)
  · intro e _
    constructor
    · intro hcase
      apply fsEq
      · rw [extract_audio_files]
        rcases hcase with hp | ⟨s, hp, hs⟩
        · rw [show extractWriteOf env i o = [] from by unfold extractWriteOf; simp [hp]]
          rfl
        · rw [show extractWriteOf env i o = []
              from by unfold extractWriteOf; simp [hp, hs]]
          rfl
      · exact extract_audio_dirs env st i o
    · intro s stderr lf hp hs hd
      rw [extract_audio_files]
      cases lf with
      | none =>
        rw [show extractWriteOf env i o = []
            from by unfold extractWriteOf; simp [hp, hs, hd]]
        rfl
      | some junk =>
        rw [show extractWriteOf env i o = [(o, junk)]
            from by unfold extractWriteOf; simp [hp, hs, hd]]
        rw [show applyWrites st.fs.files [(o, junk)] = setFile st.fs.files o junk from rfl]
        rw [lookupF_setFile, if_pos rfl]
        rfl
  · intro v a f e hf hres
    obtain ⟨_, _, h3, _⟩ := process_videos_char env st v a
    rw [h3]
    rw [List.mem_append]
    right
    rw [List.mem_cons]
    right
    rw [List.mem_flatMap]
    refine ⟨f, hf, ?_⟩
    unfold extractEvs
    rw [hres]
    simp

/-- C4 counterexample environment: a readable video whose decode fails
with the tool leaving a truncated file at the output path. -/
def envC4 : Env :=
  { probe := fun _ => some "3.14",
    decode := fun _ => DecodeRes.fail "boom" (some "PARTIALBYTES"),
    loadModel := some 0,
    transcribeFn := fun _ _ => some "hello" }

def stC4 : St := initSt { files := [(["videos", "a.mp4"], "VID")], dirs := [["videos"]] }

/-- C4 counterexample: the decode subprocess fails, the error is logged for
videos/a.mp4, yet a partial file does exist at the mirrored target
audio/a.wav — the filesystem at the target path is not unchanged. -/
theorem claim_C4_counterexample :
    Ev.logMsg ("Error processing a.mp4: boom") ∈
      (process_videos envC4 stC4 ["videos"] ["audio"]).evs ∧
    lookupF (process_videos envC4 stC4 ["videos"] ["audio"]).fs.files
      ["audio", "a.wav"] = some "PARTIALBYTES" := by
  constructor <;> decide

/-- Event classification used by the mode-selection claim: events that
enumerate or read the video root. -/
def touchesVideoRoot : Ev → Bool
  | Ev.enumerate r _ => decide (r = videosRoot)
  | Ev.probe _ => true
  | Ev.decode _ _ => true
  | _ => false

lemma extractEvs_no_transcribe (env : Env) (v a : FsPath) (M : List FsPath)
    (k : Nat) (p : FsPath) :
    Ev.transcribeCall k p ∉ M.flatMap (extractEvs env v a) := by
  intro h
  obtain ⟨f, hf, hmem⟩ := List.mem_flatMap.mp h
  rcases extractEvs_shape env v a f _ hmem with h1 | h1 | ⟨s, h1⟩ <;> simp at h1

lemma extractEvs_no_load (env : Env) (v a : FsPath) (M : List FsPath) (k : Nat) :
    Ev.loadModel k ∉ M.flatMap (extractEvs env v a) := by
  intro h
  obtain ⟨f, hf, hmem⟩ := List.mem_flatMap.mp h
  rcases extractEvs_shape env v a f _ hmem with h1 | h1 | ⟨s, h1⟩ <;> simp at h1

lemma transcribeEvs_no_probe (env : Env) (m : Nat) (aF rF : FsPath) (M : List FsPath)
    (p : FsPath) :
    Ev.probe p ∉ M.flatMap (transcribeEvs env m aF rF) := by
  intro h
  obtain ⟨f, hf, hmem⟩ := List.mem_flatMap.mp h
  rcases transcribeEvs_shape env m aF rF f _ hmem with h1 | ⟨s, h1⟩ <;> simp at h1

lemma transcribeEvs_no_load (env : Env) (m : Nat) (aF rF : FsPath) (M : List FsPath)
    (k : Nat) :
    Ev.loadModel k ∉ M.flatMap (transcribeEvs env m aF rF) := by
  intro h
  obtain ⟨f, hf, hmem⟩ := List.mem_flatMap.mp h
  rcases transcribeEvs_shape env m aF rF f _ hmem with h1 | ⟨s, h1⟩ <;> simp at h1

lemma transcribeEvs_no_touch (env : Env) (m : Nat) (aF rF : FsPath) (M : List FsPath) :
    ∀ e ∈ M.flatMap (transcribeEvs env m aF rF), touchesVideoRoot e = false := by
  intro e he
  obtain ⟨f, hf, hmem⟩ := List.mem_flatMap.mp he
  rcases transcribeEvs_shape env m aF rF f _ hmem with h1 | ⟨s, h1⟩ <;> subst h1 <;> rfl

lemma mainRun_none_fst (env : Env) (argv : List String) (fs0 : FS)
    (hm : env.loadModel = none) :
    (mainRun env argv fs0).1 =
      pushEv (stMkdirOne (stMkdirOne (initSt fs0) audioRoot) resultsRoot)
        (Ev.logMsg "Loading Whisper model...") := by
  rw [mainRun_none_eq env argv fs0 hm]

lemma mainRun_none_snd (env : Env) (argv : List String) (fs0 : FS)
    (hm : env.loadModel = none) :
    (mainRun env argv fs0).2 = some PyErr.modelLoadError := by
  rw [mainRun_none_eq env argv fs0 hm]

lemma mainRun_pa_fst (env : Env) (argv : List String) (fs0 : FS) (m : Nat)
    (hm : env.loadModel = some m) (ha : argv.head? = some "processaudio") :
    (mainRun env argv fs0).1 =
      finalCheck (process_audio_files env (paPre fs0 m) audioRoot resultsRoot m)
        resultsRoot := by
  rw [mainRun_pa_eq env argv fs0 m hm ha]

lemma mainRun_pa_snd (env : Env) (argv : List String) (fs0 : FS) (m : Nat)
    (hm : env.loadModel = some m) (ha : argv.head? = some "processaudio") :
    (mainRun env argv fs0).2 = none := by
  rw [mainRun_pa_eq env argv fs0 m hm ha]

lemma mainRun_full_fst (env : Env) (argv : List String) (fs0 : FS) (m : Nat)
    (hm : env.loadModel = some m) (ha : ¬argv.head? = some "processaudio") :
    (mainRun env argv fs0).1 =
      finalCheck
        (process_audio_files env
          (pushEv (process_videos env (fullPre fs0 m) videosRoot audioRoot)
            (Ev.logMsg "Transcribing audio files..."))
          audioRoot resultsRoot m)
        resultsRoot := by
  rw [mainRun_full_eq env argv fs0 m hm ha]

lemma mainRun_full_snd (env : Env) (argv : List String) (fs0 : FS) (m : Nat)
    (hm : env.loadModel = some m) (ha : ¬argv.head? = some "processaudio") :
    (mainRun env argv fs0).2 = none := by
  rw [mainRun_full_eq env argv fs0 m hm ha]

/-- C2: with first argument exactly "processaudio" the run never
enumerates or reads the video root (no enumeration of it, no probe, no
decode); with no argument or any other first argument (and the model
loading), the trace splits into an extraction part containing the
video-root enumeration and free of transcription calls, followed by a
transcription part containing the audio-root enumeration and free of
probe calls. -/
theorem claim_C2 (env : Env) (argv : List String) (fs0 : FS) :
    (argv.head? = some "processaudio" →
      ∀ e ∈ (mainRun env argv fs0).1.evs, touchesVideoRoot e = false) ∧
    (¬argv.head? = some "processaudio" → ∀ m, env.loadModel = some m →
      ∃ l1 l2, (mainRun env argv fs0).1.evs = l1 ++ l2 ∧
        Ev.enumerate videosRoot "*.mp4" ∈ l1 ∧
        Ev.enumerate audioRoot "*.wav" ∈ l2 ∧
        (∀ k p, Ev.transcribeCall k p ∉ l1) ∧
        (∀ p, Ev.probe p ∉ l2)) := by
  constructor
  · intro ha
    cases hm : env.loadModel with
    | none =>
      rw [mainRun_none_fst env argv fs0 hm]
      intro e he
      simp only [pushEv_evs, stMkdirOne_evs, initSt_evs, List.nil_append,
        List.mem_singleton] at he
      subst he
      rfl
    | some m =>
      obtain ⟨es, hevs, hes⟩ := finalCheck_evs
        (process_audio_files env (paPre fs0 m) audioRoot resultsRoot m) resultsRoot
      obtain ⟨_, _, hpa3, _⟩ :=
        process_audio_files_char env (paPre fs0 m) audioRoot resultsRoot m
      rw [mainRun_pa_fst env argv fs0 m hm ha, hevs, hpa3, paPre_evs]
      refine List.forall_mem_append.mpr ⟨List.forall_mem_append.mpr ⟨?_, ?_⟩, ?_⟩
      · intro e he
        simp at he
        rcases he with rfl | rfl | rfl <;> rfl
      · refine List.forall_mem_cons.mpr ⟨by decide, ?_⟩
        exact transcribeEvs_no_touch env m audioRoot resultsRoot _
      · refine List.forall_mem_cons.mpr ⟨by decide, ?_⟩
        intro e he
        obtain ⟨msg, rfl⟩ := hes e he
        rfl
  · intro ha m hm
    obtain ⟨es, hevs, hes⟩ := finalCheck_evs
      (process_audio_files env
        (pushEv (process_videos env (fullPre fs0 m) videosRoot audioRoot)
          (Ev.logMsg "Transcribing audio files..."))
        audioRoot resultsRoot m) resultsRoot
    obtain ⟨_, _, hpa3, _⟩ := process_audio_files_char env
      (pushEv (process_videos env (fullPre fs0 m) videosRoot audioRoot)
        (Ev.logMsg "Transcribing audio files..."))
      audioRoot resultsRoot m
    obtain ⟨_, _, hpv3, _⟩ := process_videos_char env (fullPre fs0 m) videosRoot audioRoot
    refine ⟨(process_videos env (fullPre fs0 m) videosRoot audioRoot).evs,
      Ev.logMsg "Transcribing audio files..." :: Ev.enumerate audioRoot "*.wav" ::
        ((matchedOf
            (pushEv (process_videos env (fullPre fs0 m) videosRoot audioRoot)
              (Ev.logMsg "Transcribing audio files...")).fs.files audioRoot
            ".wav").flatMap (transcribeEvs env m audioRoot resultsRoot) ++
          Ev.enumerate resultsRoot "*.txt" :: es), ?_, ?_, ?_, ?_, ?_⟩
    · rw [mainRun_full_fst env argv fs0 m hm ha, hevs, hpa3, pushEv_evs]
      simp [List.append_assoc]
    · rw [hpv3, fullPre_evs]
      simp
    · simp
    · intro k p h
      rw [hpv3, fullPre_evs] at h
      simp only [List.mem_append, List.mem_cons, List.not_mem_nil, or_false] at h
      rcases h with (h | h | h | h) | h | h
      · simp at h
      · simp at h
      · simp at h
      · simp at h
      · simp at h
      · exact extractEvs_no_transcribe env videosRoot audioRoot _ k p h
    · intro p h
      simp only [List.mem_append, List.mem_cons] at h
      rcases h with h | h | h | h
      · simp at h
      · simp at h
      · exact transcribeEvs_no_probe env m audioRoot resultsRoot _ p h
      · rcases h with h | h
        · simp at h
        · obtain ⟨msg, hmsg⟩ := hes _ h
          simp at hmsg

/-- C8: the model is loaded exactly once per run, right after the initial
messages and before any enumeration, probe, decode or transcription (the
trace starts with the loading message and the single load event, and no
further load event occurs); every transcription call uses the loaded
handle; and a load failure is uncaught — the run aborts with the error,
no file is written and nothing is processed. -/
theorem claim_C8 (env : Env) (argv : List String) (fs0 : FS) :
    (env.loadModel = none →
      (mainRun env argv fs0).2 = some PyErr.modelLoadError ∧
      (mainRun env argv fs0).1.fs.files = fs0.files ∧
      (mainRun env argv fs0).1.evs = [Ev.logMsg "Loading Whisper model..."]) ∧
    (∀ m, env.loadModel = some m →
      ∃ post, (mainRun env argv fs0).1.evs =
          Ev.logMsg "Loading Whisper model..." :: Ev.loadModel m :: post ∧
        (∀ k, Ev.loadModel k ∉ post) ∧
        (∀ k p, Ev.transcribeCall k p ∈ post → k = m)) := by
  constructor
  · intro hm
    refine ⟨mainRun_none_snd env argv fs0 hm, ?_, ?_⟩
    · rw [mainRun_none_fst env argv fs0 hm]
      rfl
    · rw [mainRun_none_fst env argv fs0 hm]
      rfl
  · intro m hm
    by_cases ha : argv.head? = some "processaudio"
    · obtain ⟨es, hevs, hes⟩ := finalCheck_evs
        (process_audio_files env (paPre fs0 m) audioRoot resultsRoot m) resultsRoot
      obtain ⟨_, _, hpa3, _⟩ :=
        process_audio_files_char env (paPre fs0 m) audioRoot resultsRoot m
      refine ⟨Ev.logMsg "Transcribing audio files..." :: Ev.enumerate audioRoot "*.wav" ::
        ((matchedOf (paPre fs0 m).fs.files audioRoot ".wav").flatMap
          (transcribeEvs env m audioRoot resultsRoot) ++
          Ev.enumerate resultsRoot "*.txt" :: es), ?_, ?_, ?_⟩
      · rw [mainRun_pa_fst env argv fs0 m hm ha, hevs, hpa3, paPre_evs]
        simp [List.append_assoc]
      · intro k h
        simp only [List.mem_cons, List.mem_append] at h
        rcases h with h | h | h | h
        · simp at h
        · simp at h
        · exact transcribeEvs_no_load env m audioRoot resultsRoot _ k h
        · rcases h with h | h
          · simp at h
          · obtain ⟨msg, hmsg⟩ := hes _ h
            simp at hmsg
      · intro k p h
        simp only [List.mem_cons, List.mem_append] at h
        rcases h with h | h | h | h
        · simp at h
        · simp at h
        · exact ((transcribeCall_mem_transcribe_flatMap env m audioRoot resultsRoot
            _ k p).mp h).1
        · rcases h with h | h
          · simp at h
          · obtain ⟨msg, hmsg⟩ := hes _ h
            simp at hmsg
    · obtain ⟨es, hevs, hes⟩ := finalCheck_evs
        (process_audio_files env
          (pushEv (process_videos env (fullPre fs0 m) videosRoot audioRoot)
            (Ev.logMsg "Transcribing audio files..."))
          audioRoot resultsRoot m) resultsRoot
      obtain ⟨_, _, hpa3, _⟩ := process_audio_files_char env
        (pushEv (process_videos env (fullPre fs0 m) videosRoot audioRoot)
          (Ev.logMsg "Transcribing audio files..."))
        audioRoot resultsRoot m
      obtain ⟨_, _, hpv3, _⟩ :=
        process_videos_char env (fullPre fs0 m) videosRoot audioRoot
      refine ⟨Ev.logMsg "Extracting audio from videos..." ::
        Ev.enumerate videosRoot "*.mp4" :: Ev.enumerate videosRoot "*.mp4" ::
        ((matchedOf fs0.files videosRoot ".mp4").flatMap
          (extractEvs env videosRoot audioRoot) ++
          Ev.logMsg "Transcribing audio files..." :: Ev.enumerate audioRoot "*.wav" ::
          ((matchedOf
              (pushEv (process_videos env (fullPre fs0 m) videosRoot audioRoot)
                (Ev.logMsg "Transcribing audio files...")).fs.files audioRoot
              ".wav").flatMap (transcribeEvs env m audioRoot resultsRoot) ++
            Ev.enumerate resultsRoot "*.txt" :: es)), ?_, ?_, ?_⟩
      · rw [mainRun_full_fst env argv fs0 m hm ha, hevs, hpa3, pushEv_evs, hpv3,
          fullPre_evs, fullPre_files]
        simp [List.append_assoc]
      · intro k h
        simp only [List.mem_cons, List.mem_append] at h
        rcases h with h | h | h | h | h
        · simp at h
        · simp at h
        · simp at h
        · exact extractEvs_no_load env videosRoot audioRoot _ k h
        · rcases h with h | h | h
          · simp at h
          · simp at h
          · rcases h with h | h
            · exact transcribeEvs_no_load env m audioRoot resultsRoot _ k h
            · rcases h with h | h
              · simp at h
              · obtain ⟨msg, hmsg⟩ := hes _ h
                simp at hmsg
      · intro k p h
        simp only [List.mem_cons, List.mem_append] at h
        rcases h with h | h | h | h | h
        · simp at h
        · simp at h
        · simp at h
        · exact absurd h (extractEvs_no_transcribe env videosRoot audioRoot _ k p)
        · rcases h with h | h | h
          · simp at h
          · simp at h
          · rcases h with h | h
            · exact ((transcribeCall_mem_transcribe_flatMap env m audioRoot resultsRoot
                _ k p).mp h).1
            · rcases h with h | h
              · simp at h
              · obtain ⟨msg, hmsg⟩ := hes _ h
                simp at hmsg

/-- C9: in full-pipeline mode the transcription phase enumerates the whole
audio root, so a .wav file already present before the run — with or
without a corresponding video — also gets a transcription call, and when
the model call succeeds a transcript file exists at its mirrored path
under the results root. -/
theorem claim_C9 (env : Env) (argv : List String) (fs0 : FS) (m : Nat) (p : FsPath)
    (ha : ¬argv.head? = some "processaudio") (hm : env.loadModel = some m)
    (hp : p ∈ matchedOf fs0.files audioRoot ".wav") :
    Ev.transcribeCall m p ∈ (mainRun env argv fs0).1.evs ∧
    (env.transcribeFn m p ≠ none →
      ∃ c, lookupF (mainRun env argv fs0).1.fs.files
        (txtTarget audioRoot resultsRoot p) = some c) := by
  obtain ⟨es, hevs, hes⟩ := finalCheck_evs
    (process_audio_files env
      (pushEv (process_videos env (fullPre fs0 m) videosRoot audioRoot)
        (Ev.logMsg "Transcribing audio files..."))
      audioRoot resultsRoot m) resultsRoot
  obtain ⟨hpa1, _, hpa3, _⟩ := process_audio_files_char env
    (pushEv (process_videos env (fullPre fs0 m) videosRoot audioRoot)
      (Ev.logMsg "Transcribing audio files..."))
    audioRoot resultsRoot m
  obtain ⟨hpv1, _, _, _⟩ :=
    process_videos_char env (fullPre fs0 m) videosRoot audioRoot
  have hmid : (pushEv (process_videos env (fullPre fs0 m) videosRoot audioRoot)
      (Ev.logMsg "Transcribing audio files...")).fs.files =
      applyWrites fs0.files (extractWrites env fs0.files videosRoot audioRoot) := by
    rw [pushEv_fs, hpv1, fullPre_files]
  have hpMid : p ∈ matchedOf
      (pushEv (process_videos env (fullPre fs0 m) videosRoot audioRoot)
        (Ev.logMsg "Transcribing audio files...")).fs.files audioRoot ".wav" := by
    rw [hmid]
    exact mem_matchedOf_mono fs0.files _ audioRoot ".wav" p hp
  constructor
  · rw [mainRun_full_fst env argv fs0 m hm ha, hevs, hpa3]
    rw [List.mem_append]
    left
    rw [List.mem_append]
    right
    rw [List.mem_cons]
    right
    exact (transcribeCall_mem_transcribe_flatMap env m audioRoot resultsRoot
      _ m p).mpr ⟨rfl, hpMid⟩
  · intro hne
    obtain ⟨t, ht⟩ := Option.ne_none_iff_exists'.mp hne
    have hmem : (txtTarget audioRoot resultsRoot p, t) ∈
        transcribeWrites env
          (pushEv (process_videos env (fullPre fs0 m) videosRoot audioRoot)
            (Ev.logMsg "Transcribing audio files...")).fs.files
          audioRoot resultsRoot m := by
      unfold transcribeWrites
      rw [List.mem_flatMap]
      refine ⟨p, hpMid, ?_⟩
      unfold transcribeWriteOf
      rw [ht]
      simp
    obtain ⟨d, hd⟩ := lastWrite_isSome_of_mem _ _ _ hmem
    refine ⟨d, ?_⟩
    rw [mainRun_full_fst env argv fs0 m hm ha, finalCheck_fs, hpa1,
      lookupF_applyWrites, hd]
    rfl

/-! ### Idempotence machinery -/

lemma myOr_idem (a c : Option String) : myOr a (myOr a c) = myOr a c := by
  cases a <;> rfl

lemma myOr_absorb (a b c : Option String) :
    myOr a (myOr b (myOr a (myOr b c))) = myOr a (myOr b c) := by
  cases a <;> cases b <;> rfl

lemma applyWrites_absorb (fl0 ws : List (FsPath × String))
    (hnd : (keysOf fl0).Nodup) :
    applyWrites (applyWrites fl0 ws) ws = applyWrites fl0 ws := by
  apply eq_of_keysOf_lookupF
  · apply keysOf_applyWrites_of_subset
    intro pc hpc
    exact mem_keysOf_applyWrites_of_mem ws fl0 pc.1 pc.2 hpc
  · exact nodup_keysOf_applyWrites ws fl0 hnd
  · intro q
    simp only [lookupF_applyWrites]
    exact myOr_idem _ _

lemma applyWrites_absorb2 (fl0 w1 w2 : List (FsPath × String))
    (hnd : (keysOf fl0).Nodup) :
    applyWrites (applyWrites (applyWrites (applyWrites fl0 w1) w2) w1) w2 =
      applyWrites (applyWrites fl0 w1) w2 := by
  apply eq_of_keysOf_lookupF
  · have hsub1 : ∀ pc ∈ w1, pc.1 ∈ keysOf (applyWrites (applyWrites fl0 w1) w2) := by
      intro pc hpc
      exact mem_keysOf_applyWrites_mono w2 _ _
        (mem_keysOf_applyWrites_of_mem w1 fl0 pc.1 pc.2 hpc)
    have hk1 : keysOf (applyWrites (applyWrites (applyWrites fl0 w1) w2) w1) =
        keysOf (applyWrites (applyWrites fl0 w1) w2) :=
      keysOf_applyWrites_of_subset w1 _ hsub1
    have hsub2 : ∀ pc ∈ w2,
        pc.1 ∈ keysOf (applyWrites (applyWrites (applyWrites fl0 w1) w2) w1) := by
      intro pc hpc
      rw [hk1]
      exact mem_keysOf_applyWrites_of_mem w2 _ pc.1 pc.2 hpc
    rw [keysOf_applyWrites_of_subset w2 _ hsub2, hk1]
  · exact nodup_keysOf_applyWrites w2 _ (nodup_keysOf_applyWrites w1 fl0 hnd)
  · intro q
    simp only [lookupF_applyWrites]
    exact myOr_absorb _ _ _

lemma extractWrites_not_videos (env : Env) (fl : List (FsPath × String)) :
    ∀ pc ∈ extractWrites env fl videosRoot audioRoot,
      (isUnder videosRoot pc.1 && strEndsWith (lastComp pc.1) ".mp4") = false := by
  intro pc hpc
  obtain ⟨f, _, hkey⟩ := extractWrites_key env fl videosRoot audioRoot pc hpc
  rw [hkey, show audioTarget videosRoot audioRoot f =
    audioRoot ++ modifyLast (fun n => pyWithSuffix n ".wav") (relTo videosRoot f) from rfl,
    not_under_videos_audio]
  rfl

lemma transcribeWrites_not_videos (env : Env) (fl : List (FsPath × String)) (m : Nat) :
    ∀ pc ∈ transcribeWrites env fl audioRoot resultsRoot m,
      (isUnder videosRoot pc.1 && strEndsWith (lastComp pc.1) ".mp4") = false := by
  intro pc hpc
  obtain ⟨f, _, hkey⟩ := transcribeWrites_key env fl audioRoot resultsRoot m pc hpc
  rw [hkey, show txtTarget audioRoot resultsRoot f =
    resultsRoot ++ modifyLast (fun n => pyWithSuffix n ".txt") (relTo audioRoot f) from rfl,
    not_under_videos_results]
  rfl

lemma transcribeWrites_not_audio (env : Env) (fl : List (FsPath × String)) (m : Nat) :
    ∀ pc ∈ transcribeWrites env fl audioRoot resultsRoot m,
      (isUnder audioRoot pc.1 && strEndsWith (lastComp pc.1) ".wav") = false := by
  intro pc hpc
  obtain ⟨f, _, hkey⟩ := transcribeWrites_key env fl audioRoot resultsRoot m pc hpc
  rw [hkey, show txtTarget audioRoot resultsRoot f =
    resultsRoot ++ modifyLast (fun n => pyWithSuffix n ".txt") (relTo audioRoot f) from rfl,
    not_under_audio_results]
  rfl

/-- C7: the pipeline is idempotent on an unchanged input tree: when a run
completes (the model loads), running main again with the same arguments on
the resulting filesystem completes as well and reproduces the filesystem
byte for byte — every output file is overwritten with identical content
and no already-existing file or directory causes an error (mkdir with
exist_ok never fails). -/
theorem claim_C7_idempotent (env : Env) (argv : List String) (fs0 : FS)
    (hnd : (keysOf fs0.files).Nodup)
    (h1 : (mainRun env argv fs0).2 = none) :
    (mainRun env argv (mainRun env argv fs0).1.fs).2 = none ∧
    (mainRun env argv (mainRun env argv fs0).1.fs).1.fs = (mainRun env argv fs0).1.fs ∧
    (∀ (fs : FS) (d : FsPath) (pr : Bool), ∃ fs2, pyMkdir fs d pr true = Except.ok fs2) := by
  have hmk : ∀ (fs : FS) (d : FsPath) (pr : Bool),
      ∃ fs2, pyMkdir fs d pr true = Except.ok fs2 := by
    intro fs d pr
    refine ⟨if pr then mkdirParents fs d else mkdirOne fs d, ?_⟩
    unfold pyMkdir
    rw [if_neg (by simp)]
  cases hml : env.loadModel with
  | none =>
    rw [mainRun_none_snd env argv fs0 hml] at h1
    exact absurd h1 (by simp)
  | some m =>
  set fs1 := (mainRun env argv fs0).1.fs with hfs1def
  by_cases ha : argv.head? = some "processaudio"
  · obtain ⟨hA1, hA2, _, _⟩ :=
      process_audio_files_char env (paPre fs0 m) audioRoot resultsRoot m
    have hfs1 : fs1 =
        (process_audio_files env (paPre fs0 m) audioRoot resultsRoot m).fs := by
      rw [hfs1def, mainRun_pa_fst env argv fs0 m hml ha, finalCheck_fs]
    have hfiles1 : fs1.files =
        applyWrites fs0.files (transcribeWrites env fs0.files audioRoot resultsRoot m) := by
      rw [hfs1, hA1, paPre_files]
    have hdirs1 : fs1.dirs =
        applyDirs (insertDir (insertDir fs0.dirs audioRoot) resultsRoot)
          ((matchedOf fs0.files audioRoot ".wav").flatMap
            (fun f => prefixesIncl (txtTarget audioRoot resultsRoot f).dropLast)) := by
      rw [hfs1, hA2, paPre_dirs, paPre_files]
    obtain ⟨hB1, hB2, _, _⟩ :=
      process_audio_files_char env (paPre fs1 m) audioRoot resultsRoot m
    have hMa : matchedOf fs1.files audioRoot ".wav" =
        matchedOf fs0.files audioRoot ".wav" := by
      rw [hfiles1]
      exact matchedOf_applyWrites_of_not fs0.files _ audioRoot ".wav"
        (transcribeWrites_not_audio env fs0.files m)
    have hWt : transcribeWrites env fs1.files audioRoot resultsRoot m =
        transcribeWrites env fs0.files audioRoot resultsRoot m := by
      unfold transcribeWrites
      rw [hMa]
    have hfiles2 : (mainRun env argv fs1).1.fs.files = fs1.files := by
      rw [mainRun_pa_fst env argv fs1 m hml ha, finalCheck_fs, hB1, paPre_files, hWt,
        hfiles1]
      exact applyWrites_absorb fs0.files _ hnd
    have hdirs2 : (mainRun env argv fs1).1.fs.dirs = fs1.dirs := by
      rw [mainRun_pa_fst env argv fs1 m hml ha, finalCheck_fs, hB2, paPre_dirs,
        paPre_files, hMa]
      have haR : audioRoot ∈ fs1.dirs := by
        rw [hdirs1]
        exact mem_applyDirs_mono _ _ _
          (mem_insertDir_mono _ _ _ (mem_insertDir_self _ _))
      have hrR : resultsRoot ∈ fs1.dirs := by
        rw [hdirs1]
        exact mem_applyDirs_mono _ _ _ (mem_insertDir_self _ _)
      rw [insertDir_of_mem _ _ haR, insertDir_of_mem _ _ hrR]
      apply applyDirs_of_subset
      intro d hd2
      rw [hdirs1]
      exact mem_applyDirs_of_mem _ _ _ hd2
    exact ⟨mainRun_pa_snd env argv fs1 m hml ha, fsEq _ _ hfiles2 hdirs2, hmk⟩
  · obtain ⟨hpv1, hpv2, _, _⟩ :=
      process_videos_char env (fullPre fs0 m) videosRoot audioRoot
    obtain ⟨hpa1, hpa2, _, _⟩ := process_audio_files_char env
      (pushEv (process_videos env (fullPre fs0 m) videosRoot audioRoot)
        (Ev.logMsg "Transcribing audio files..."))
      audioRoot resultsRoot m
    have hmidf : (pushEv (process_videos env (fullPre fs0 m) videosRoot audioRoot)
        (Ev.logMsg "Transcribing audio files...")).fs.files =
        applyWrites fs0.files (extractWrites env fs0.files videosRoot audioRoot) := by
      rw [pushEv_fs, hpv1, fullPre_files]
    have hmidd : (pushEv (process_videos env (fullPre fs0 m) videosRoot audioRoot)
        (Ev.logMsg "Transcribing audio files...")).fs.dirs =
        applyDirs (insertDir (insertDir fs0.dirs audioRoot) resultsRoot)
          ((matchedOf fs0.files videosRoot ".mp4").flatMap
            (fun f => prefixesIncl (audioTarget videosRoot audioRoot f).dropLast)) := by
      rw [pushEv_fs, hpv2, fullPre_dirs, fullPre_files]
    have hfiles1 : fs1.files =
        applyWrites
          (applyWrites fs0.files (extractWrites env fs0.files videosRoot audioRoot))
          (transcribeWrites env
            (applyWrites fs0.files (extractWrites env fs0.files videosRoot audioRoot))
            audioRoot resultsRoot m) := by
      rw [hfs1def, mainRun_full_fst env argv fs0 m hml ha, finalCheck_fs, hpa1, hmidf]
    have hdirs1 : fs1.dirs =
        applyDirs
          (applyDirs (insertDir (insertDir fs0.dirs audioRoot) resultsRoot)
            ((matchedOf fs0.files videosRoot ".mp4").flatMap
              (fun f => prefixesIncl (audioTarget videosRoot audioRoot f).dropLast)))
          ((matchedOf
              (applyWrites fs0.files (extractWrites env fs0.files videosRoot audioRoot))
              audioRoot ".wav").flatMap
            (fun f => prefixesIncl (txtTarget audioRoot resultsRoot f).dropLast)) := by
      rw [hfs1def, mainRun_full_fst env argv fs0 m hml ha, finalCheck_fs, hpa2, hmidd,
        hmidf]
    have hMv : matchedOf fs1.files videosRoot ".mp4" =
        matchedOf fs0.files videosRoot ".mp4" := by
      rw [hfiles1]
      rw [matchedOf_applyWrites_of_not _ _ _ _
        (transcribeWrites_not_videos env
          (applyWrites fs0.files (extractWrites env fs0.files videosRoot audioRoot)) m)]
      exact matchedOf_applyWrites_of_not _ _ _ _ (extractWrites_not_videos env fs0.files)
    have hWv2 : extractWrites env fs1.files videosRoot audioRoot =
        extractWrites env fs0.files videosRoot audioRoot := by
      unfold extractWrites
      rw [hMv]
    have hsubWv : ∀ pc ∈ extractWrites env fs0.files videosRoot audioRoot,
        pc.1 ∈ keysOf fs1.files := by
      intro pc hpc
      rw [hfiles1]
      exact mem_keysOf_applyWrites_mono _ _ _
        (mem_keysOf_applyWrites_of_mem _ fs0.files pc.1 pc.2 hpc)
    have hMa2 : matchedOf
        (applyWrites fs1.files (extractWrites env fs0.files videosRoot audioRoot))
        audioRoot ".wav" =
        matchedOf
          (applyWrites fs0.files (extractWrites env fs0.files videosRoot audioRoot))
          audioRoot ".wav" := by
      rw [matchedOf_applyWrites_of_subset fs1.files _ audioRoot ".wav" hsubWv, hfiles1]
      exact matchedOf_applyWrites_of_not _ _ _ _
        (transcribeWrites_not_audio env
          (applyWrites fs0.files (extractWrites env fs0.files videosRoot audioRoot)) m)
    obtain ⟨hqv1, hqv2, _, _⟩ :=
      process_videos_char env (fullPre fs1 m) videosRoot audioRoot
    obtain ⟨hqa1, hqa2, _, _⟩ := process_audio_files_char env
      (pushEv (process_videos env (fullPre fs1 m) videosRoot audioRoot)
        (Ev.logMsg "Transcribing audio files..."))
      audioRoot resultsRoot m
    have hmidf2 : (pushEv (process_videos env (fullPre fs1 m) videosRoot audioRoot)
        (Ev.logMsg "Transcribing audio files...")).fs.files =
        applyWrites fs1.files (extractWrites env fs0.files videosRoot audioRoot) := by
      rw [pushEv_fs, hqv1, fullPre_files, hWv2]
    have hmidd2 : (pushEv (process_videos env (fullPre fs1 m) videosRoot audioRoot)
        (Ev.logMsg "Transcribing audio files...")).fs.dirs =
        applyDirs (insertDir (insertDir fs1.dirs audioRoot) resultsRoot)
          ((matchedOf fs0.files videosRoot ".mp4").flatMap
            (fun f => prefixesIncl (audioTarget videosRoot audioRoot f).dropLast)) := by
      rw [pushEv_fs, hqv2, fullPre_dirs, fullPre_files, hMv]
    have hWt2 : transcribeWrites env
        (applyWrites fs1.files (extractWrites env fs0.files videosRoot audioRoot))
        audioRoot resultsRoot m =
        transcribeWrites env
          (applyWrites fs0.files (extractWrites env fs0.files videosRoot audioRoot))
          audioRoot resultsRoot m := by
      unfold transcribeWrites
      rw [hMa2]
    have hfiles2 : (mainRun env argv fs1).1.fs.files = fs1.files := by
      rw [mainRun_full_fst env argv fs1 m hml ha, finalCheck_fs, hqa1, hmidf2, hWt2,
        hfiles1]
      exact applyWrites_absorb2 fs0.files _ _ hnd
    have hdirs2 : (mainRun env argv fs1).1.fs.dirs = fs1.dirs := by
      rw [mainRun_full_fst env argv fs1 m hml ha, finalCheck_fs, hqa2, hmidd2, hmidf2,
        hMa2]
      have haR : audioRoot ∈ fs1.dirs := by
        rw [hdirs1]
        exact mem_applyDirs_mono _ _ _ (mem_applyDirs_mono _ _ _
          (mem_insertDir_mono _ _ _ (mem_insertDir_self _ _)))
      have hrR : resultsRoot ∈ fs1.dirs := by
        rw [hdirs1]
        exact mem_applyDirs_mono _ _ _
          (mem_applyDirs_mono _ _ _ (mem_insertDir_self _ _))
      rw [insertDir_of_mem _ _ haR, insertDir_of_mem _ _ hrR]
      have hDv : ∀ d ∈ (matchedOf fs0.files videosRoot ".mp4").flatMap
          (fun f => prefixesIncl (audioTarget videosRoot audioRoot f).dropLast),
          d ∈ fs1.dirs := by
        intro d hd2
        rw [hdirs1]
        exact mem_applyDirs_mono _ _ _ (mem_applyDirs_of_mem _ _ _ hd2)
      rw [applyDirs_of_subset _ fs1.dirs hDv]
      apply applyDirs_of_subset
      intro d hd2
      rw [hdirs1]
      exact mem_applyDirs_of_mem _ _ _ hd2
    exact ⟨mainRun_full_snd env argv fs1 m hml ha, fsEq _ _ hfiles2 hdirs2, hmk⟩

/-! ### Concrete witness environment -/

def fsW : FS :=
  { files := [(["videos", "a.mp4"], "VID1"), (["videos", "empty.mp4"], "VID2"),
      (["audio", "stray.wav"], "WAV1")],
    dirs := [["videos"]] }

def stW : St := initSt fsW

def envW : Env :=
  { probe := fun p =>
      if p = ["videos", "empty.mp4"] then some "   "
      else if p = ["videos", "bad.mp4"] then none
      else some "3.14",
    decode := fun _ => DecodeRes.ok "AUDIOBYTES",
    loadModel := some 7,
    transcribeFn := fun _ p => if p = ["audio", "err.wav"] then none else some "text" }

/-- C1 witness: the amended claim instantiated at a concrete batch. -/
theorem claim_C1_amended_witness :
    (process_videos envW stW ["videos"] ["audio"]).fs.files =
      applyWrites stW.fs.files (extractWrites envW stW.fs.files ["videos"] ["audio"]) ∧
    (process_videos envW stW ["videos"] ["audio"]).okWrites = true :=
  ⟨(claim_C1_amended envW stW ["videos"] ["audio"] ["audio"] ["results"] 7 rfl).1.1,
   (claim_C1_amended envW stW ["videos"] ["audio"] ["audio"] ["results"] 7 rfl).1.2.2.2⟩

/-- C2 witness: both modes instantiated at concrete invocations. -/
theorem claim_C2_witness :
    (∀ e ∈ (mainRun envW ["processaudio"] fsW).1.evs, touchesVideoRoot e = false) ∧
    (∃ l1 l2, (mainRun envW [] fsW).1.evs = l1 ++ l2 ∧
      Ev.enumerate videosRoot "*.mp4" ∈ l1 ∧
      Ev.enumerate audioRoot "*.wav" ∈ l2 ∧
      (∀ k p, Ev.transcribeCall k p ∉ l1) ∧
      (∀ p, Ev.probe p ∉ l2)) :=
  ⟨(claim_C2 envW ["processaudio"] fsW).1 rfl,
   (claim_C2 envW [] fsW).2 (by simp) 7 rfl⟩

/-- C3 witness: the empty-probe video of the concrete batch. -/
theorem claim_C3_witness :
    (extract_audio envW stW ["videos", "empty.mp4"] ["audio", "empty.wav"]).1.fs =
      stW.fs :=
  (claim_C3 envW stW ["videos", "empty.mp4"] ["audio", "empty.wav"] "   "
    (by decide) (by decide)).2.1

/-- C4 witness: the failing file of the concrete batch gets its error
logged by process_videos. -/
theorem claim_C4_amended_witness :
    Ev.logMsg ("Error processing " ++ lastComp ["videos", "empty.mp4"] ++ ": " ++
        pyErrStr (PyErr.valueError (unableMsg ["videos", "empty.mp4"]))) ∈
      (process_videos envW stW ["videos"] ["audio"]).evs :=
  (claim_C4_amended envW stW ["videos", "empty.mp4"] ["audio", "empty.wav"]).2.2
    ["videos"] ["audio"] ["videos", "empty.mp4"]
    (PyErr.valueError (unableMsg ["videos", "empty.mp4"])) (by decide) rfl

/-- C5 witness: a failing probe leaves the filesystem unchanged. -/
theorem claim_C5_amended_witness :
    (extract_audio envC5 stC5 ["videos", "a.mp4"] ["audio", "a.wav"]).1.fs = stC5.fs :=
  ((claim_C5_amended envC5 stC5 ["videos", "a.mp4"] ["audio", "a.wav"]).1 rfl).2

/-- C6 witness: a failing model call is swallowed and the filesystem is
unchanged. -/
theorem claim_C6_witness :
    (transcribe_audio envW stW 7 ["audio", "err.wav"] ["results", "err.txt"]).fs =
      stW.fs :=
  ((claim_C6 envW stW 7 ["audio", "err.wav"] ["results", "err.txt"]
    ["audio"] ["results"]).1 (by decide)).2

/-- C7 witness: rerunning the full pipeline on the concrete tree
reproduces the filesystem exactly. -/
theorem claim_C7_idempotent_witness :
    (mainRun envW [] (mainRun envW [] fsW).1.fs).1.fs = (mainRun envW [] fsW).1.fs :=
  (claim_C7_idempotent envW [] fsW (by decide) (by decide)).2.1

/-- C8 witness: the concrete run loads the model exactly once before
everything else. -/
theorem claim_C8_witness :
    ∃ post, (mainRun envW [] fsW).1.evs =
        Ev.logMsg "Loading Whisper model..." :: Ev.loadModel 7 :: post ∧
      (∀ k, Ev.loadModel k ∉ post) ∧
      (∀ k p, Ev.transcribeCall k p ∈ post → k = 7) :=
  (claim_C8 envW [] fsW).2 7 rfl

/-- C9 witness: the stray .wav file with no corresponding video is
transcribed by the concrete full-pipeline run. -/
theorem claim_C9_witness :
    Ev.transcribeCall 7 ["audio", "stray.wav"] ∈ (mainRun envW [] fsW).1.evs :=
  (claim_C9 envW [] fsW 7 ["audio", "stray.wav"] (by simp) rfl (by decide)).1

/-- C10 witness: the selection equivalence instantiated at a concrete
file. -/
theorem claim_C10_witness :
    Ev.probe ["videos", "a.mp4"] ∈
        (process_videos envW (initSt fsW) ["videos"] ["audio"]).evs ↔
      ["videos", "a.mp4"] ∈ matchedOf fsW.files ["videos"] ".mp4" :=
  (claim_C10 envW fsW ["videos"] ["audio"] ["audio"] ["results"] 7
    ["videos", "a.mp4"]).1

end MassVideoTranscriber
